import Mathlib

/-!
Verification of the free-text bookkeeping parser of the `smimple` repository.

The repository carries two snapshots of the parsing subsystem:
* `src/services/geminiService.ts` (modelled below in namespace `V1`), and
* the service portion of `src/unnamed/part_000` (modelled in namespace `V2`),
  which adds directional transfer resolution, an implicit cash target and a
  strong-keyword category guard.

JavaScript strings are modelled as `List Char` (the inputs of interest live in
the Basic Multilingual Plane, where UTF-16 code units and code points agree).
JavaScript numbers arising in the parser (scores, amounts) are exact decimal
fractions well below any rounding boundary, and are modelled as `ℚ`.
Regular-expression use in the source is limited to a handful of fixed patterns;
each is translated into an explicit scanner with the same leftmost,
first-alternative, greedy-with-backtracking semantics.
-/

abbrev Str := List Char

/-- Lower-casing as `String.prototype.toLowerCase` acts on the characters that
occur in this code base (ASCII letters; CJK characters are fixed points). -/
def jsLower (c : Char) : Char :=
  if ('A' ≤ c && c ≤ 'Z') then Char.ofNat (c.toNat + 32) else c

/-- Case-insensitive character comparison (the `i` regex flag). -/
def eqCI (a b : Char) : Bool := jsLower a == jsLower b

/-- The whitespace class `\s` of JavaScript regular expressions (the members
relevant to this code base, including the ideographic space). -/
def isJsSpace (c : Char) : Bool :=
  c == ' ' || c == '\t' || c == '\n' || c == '\r' ||
  c == Char.ofNat 0x0b || c == Char.ofNat 0x0c ||
  c == Char.ofNat 0xa0 || c == Char.ofNat 0x3000 ||
  c == Char.ofNat 0x2028 || c == Char.ofNat 0x2029 || c == Char.ofNat 0xfeff

/-- The digit class `\d`. -/
def isDigitC (c : Char) : Bool := '0' ≤ c && c ≤ '9'

/-- The word class `\w = [A-Za-z0-9_]`, deciding `\b` boundaries. -/
def isWordC (c : Char) : Bool :=
  ('a' ≤ c && c ≤ 'z') || ('A' ≤ c && c ≤ 'Z') || isDigitC c || c == '_'

/-- A `\b` boundary holds before a word character when the previous character
(`none` at the start of the string) is not a word character. -/
def boundaryOK (prev : Option Char) : Bool :=
  match prev with
  | none => true
  | some c => !isWordC c

/-- The punctuation set stripped by `normalizeLoose`
(`[.,!?，。！？、:;：；'"`~@#$%^&*()_+=\-[\]{}<>\\/|]`). -/
def loosePunct : Str :=
  ".,!?，。！？、:;：；~@#$%^&*()_+=-[]<>\\/|".toList ++
    [Char.ofNat 39, Char.ofNat 34, Char.ofNat 96, Char.ofNat 123, Char.ofNat 125]

/-- Source: `text.toLowerCase().replace(/\s+/g, '').replace(/[..punct..]/g, '')`,
shared verbatim by both snapshots and by `TransactionForm.tsx`. -/
def normalizeLoose (text : Str) : Str :=
  ((text.map jsLower).filter (fun c => !isJsSpace c)).filter
    (fun c => !(loosePunct.contains c))

/-- Source: `String.prototype.includes`: substring containment. -/
def containsSub (hay needle : Str) : Bool :=
  if needle.isPrefixOf hay then true
  else
    match hay with
    | [] => false
    | _ :: t => containsSub t needle

/-- Source: `tokens.some((token) => text.includes(token))` (`hasAnyToken` and
`hasAnyKeyword` in the source share this definition). -/
def hasAnyToken (text : Str) (tokens : List Str) : Bool :=
  tokens.any (fun token => containsSub text token)

/-- Source: `String.prototype.trim`. -/
def jsTrim (s : Str) : Str :=
  (s.dropWhile isJsSpace).reverse.dropWhile isJsSpace |>.reverse

/-- JavaScript `a || b` on an optional string: an absent or empty string is
falsy and yields `b`. -/
def jsOrStr (a : Option Str) (b : Option Str) : Option Str :=
  match a with
  | some s => if s = [] then b else some s
  | none => b

/-- JavaScript `a ?? b` (nullish coalescing) on optional values. -/
def jsNullish {α : Type} (a b : Option α) : Option α :=
  match a with
  | some x => some x
  | none => b

/-- Truthiness of an optional string (`Boolean(x)`). -/
def truthyStr (a : Option Str) : Bool :=
  match a with
  | some s => !(s = [])
  | none => false

/-- Source: `Array.from(new Set(l))`: deduplication keeping first occurrences. -/
def pushUnique (l : List Str) (s : Str) : List Str :=
  if s ∈ l then l else l ++ [s]

def dedupKeepFirst (l : List Str) : List Str :=
  l.foldl pushUnique []

/-- Source: `Math.max` / `Math.min` on exact rationals, by the decidable order (the
lattice operations of `ℚ` are not kernel-reducible). -/
def qmax (a b : Rat) : Rat := if b ≤ a then a else b

def qmin (a b : Rat) : Rat := if a ≤ b then a else b

def nmax (a b : Nat) : Nat := if b ≤ a then a else b

/-- Source: `CASH_HINT_KEYWORDS` (identical in both snapshots and the form). -/
def CASH_HINT_KEYWORDS : List Str := ["現金", "cash", "wallet"].map String.toList

/-- Source: `BANK_HINT_KEYWORDS`. -/
def BANK_HINT_KEYWORDS : List Str :=
  ["帳戶", "账户", "戶頭", "户头", "銀行", "银行", "bank", "account", "acc"].map String.toList

/-- Source: `getAccountHintBoost` (identical in both snapshots). -/
def getAccountHintBoost (inputNormalized accountNormalized : Str) : ℚ :=
  let inputCash := hasAnyToken inputNormalized CASH_HINT_KEYWORDS
  let inputBank := hasAnyToken inputNormalized BANK_HINT_KEYWORDS
  let accountCash := hasAnyToken accountNormalized CASH_HINT_KEYWORDS
  let accountBank := hasAnyToken accountNormalized BANK_HINT_KEYWORDS
  let b1 : ℚ := if inputCash && accountCash then 6/5 else 0
  let b2 : ℚ := if inputBank && accountBank && !accountCash then 4/5 else 0
  let b3 : ℚ := if inputBank && accountCash then -(2/5) else 0
  b1 + b2 + b3

/-- Source: `similarityByChars` (identical in `geminiService.ts`, `part_000` and
`TransactionForm.tsx`): character-set overlap divided by the larger set size. -/
def similarityByChars (a b : Str) : ℚ :=
  if a = [] || b = [] then 0
  else if a = b then 1
  else
    let aSet := a.dedup
    let bSet := b.dedup
    let overlap := (aSet.filter (fun c => bSet.contains c)).length
    let denom := nmax aSet.length bSet.length
    (overlap : ℚ) / (if denom = 0 then 1 else (denom : ℚ))

/-- Source: `scoreDescriptionSimilarity` from `TransactionForm.tsx`: character-set
Jaccard overlap (union denominator) plus a 0.3 containment bonus, capped at 1. -/
def scoreDescriptionSimilarity (a b : Str) : ℚ :=
  if a = [] || b = [] then 0
  else if a = b then 1
  else
    let aSet := a.dedup
    let bSet := b.dedup
    let intersect := (aSet.filter (fun c => bSet.contains c)).length
    let union := (aSet ++ bSet).dedup.length
    let unionD : ℚ := if union = 0 then 1 else (union : ℚ)
    let jaccard := (intersect : ℚ) / unionD
    let containsBonus : ℚ := if containsSub a b || containsSub b a then 3/10 else 0
    qmin 1 (jaccard + containsBonus)

/-- The suffix vocabulary of `accountAliases`
(`/(帳戶|账户|戶頭|户头|銀行|银行|bank|acc|account|wallet|card|卡)$/`). -/
def aliasSuffixes : List Str :=
  ["帳戶", "账户", "戶頭", "户头", "銀行", "银行", "bank", "acc", "account",
    "wallet", "card", "卡"].map String.toList

/-- Source: `normalized.replace(/(…)$/g, '')`: the `$`-anchored alternation matches at
the least position whose entire tail equals a listed suffix, and that one
occurrence is removed. -/
def stripAliasSuffix (s : Str) : Str :=
  match (List.range (s.length + 1)).find? (fun i => (s.drop i) ∈ aliasSuffixes) with
  | some i => s.take i
  | none => s

/-- Source: `p.split(/[\s_\-]+/)` semantics: split at maximal runs of separators,
keeping empty fragments at the edges (as `String.prototype.split` does). -/
def isSepC (c : Char) : Bool := isJsSpace c || c == '_' || c == '-'

def splitSepsF (fuel : Nat) (cur : Str) (s : Str) : List Str :=
  match fuel, s with
  | _, [] => [cur.reverse]
  | 0, _ => [cur.reverse]
  | fuel + 1, c :: t =>
    if isSepC c then cur.reverse :: splitSepsF fuel [] (t.dropWhile isSepC)
    else splitSepsF fuel (c :: cur) t

def splitSeps (s : Str) : List Str := splitSepsF s.length [] s

/-- JavaScript `a || b` on two plain strings (empty is falsy). -/
def jsOrS (a b : Str) : Str := if a = [] then b else a

/-- Source: `accountAliases` (identical in both snapshots and the form): the normalized
name, its suffix-stripped form, separator fragments of length ≥ 2 and the
2/3/4-character prefixes of the base form, in insertion order without
duplicates. -/
def accountAliases (name : Str) : List Str :=
  let normalized := normalizeLoose name
  let noSuffix := stripAliasSuffix normalized
  let l0 : List Str := []
  let l1 := if normalized = [] then l0 else pushUnique l0 normalized
  let l2 := if noSuffix = [] then l1 else pushUnique l1 noSuffix
  let parts := ((splitSeps noSuffix).map jsTrim).filter (fun p => 2 ≤ p.length)
  let l3 := parts.foldl pushUnique l2
  let base := jsOrS noSuffix normalized
  let l4 := if 2 ≤ base.length then pushUnique l3 (base.take 2) else l3
  let l5 := if 3 ≤ base.length then pushUnique l4 (base.take 3) else l4
  let l6 := if 4 ≤ base.length then pushUnique l5 (base.take 4) else l5
  l6

/-- The character sequence of `buildFlexibleAccountRegex`: the non-whitespace
characters of the trimmed name, joined by `\s*` (so `[]` means the source
returned `null` and no replacement happens). -/
def flexChars (name : Str) : Str :=
  (jsTrim name).filter (fun c => !isJsSpace c)

/-- Stable insertion for descending sort by score (`sort((a, b) => b.score -
a.score)` with the stable Array.prototype.sort). -/
def insertDescQ (x : Str × ℚ) : List (Str × ℚ) → List (Str × ℚ)
  | [] => [x]
  | y :: ys => if y.2 ≤ x.2 then x :: y :: ys else y :: insertDescQ x ys

def sortDescQ (l : List (Str × ℚ)) : List (Str × ℚ) :=
  l.foldr insertDescQ []

/-- Stable insertion for ascending sort by index (`sort((a, b) => a.index -
b.index)`). -/
def insertAscN (x : Str × ℕ) : List (Str × ℕ) → List (Str × ℕ)
  | [] => [x]
  | y :: ys => if x.2 ≤ y.2 then x :: y :: ys else y :: insertAscN x ys

def sortAscN (l : List (Str × ℕ)) : List (Str × ℕ) :=
  l.foldr insertAscN []

/-- The score of one candidate account inside `findAccountMentionsInText`:
the maximum over its aliases of the verbatim-containment score
(`alias.length + 1`) and the character-set similarity, and the hint boost. -/
def scoreOfAccount (normalizedText : Str) (name : Str) : ℚ :=
  let accountNormalized := normalizeLoose name
  let hintBoost := getAccountHintBoost normalizedText accountNormalized
  let aliases := accountAliases name
  let score := aliases.foldl
    (fun sc al =>
      if al = [] then sc
      else
        let sc2 := if containsSub normalizedText al then
            qmax sc ((al.length : ℚ) + 1) else sc
        qmax sc2 (similarityByChars normalizedText al))
    0
  qmax score hintBoost

/-- Source: `findAccountMentionsInText` (identical in both snapshots): candidates
scoring ≥ 0.55, in stable descending score order, de-duplicated by name. -/
def findAccountMentionsInText (text : Str) (accounts : List Str) : List Str :=
  let normalizedText := normalizeLoose text
  let scored := accounts.map (fun name => (name, scoreOfAccount normalizedText name))
  let kept := scored.filter (fun it => (11 : ℚ)/20 ≤ it.2)
  dedupKeepFirst ((sortDescQ kept).map Prod.fst)

/-- Source: `findBestAccountMatch`. -/
def findBestAccountMatch (text : Str) (accounts : List Str) : Option Str :=
  (findAccountMentionsInText text accounts).head?

/-- Generic global `replace(re, ' ')` scanner. The matcher returns the total
number of characters (always ≥ 1 for the matchers below) that the pattern
consumes at the head of the remaining text; the match is replaced by one space
and scanning resumes after it (leftmost, non-overlapping, as `/g` does). -/
def scanReplaceF (m : Str → Option Nat) : Nat → Str → Str
  | _, [] => []
  | 0, s => s
  | fuel + 1, c :: rest =>
    match m (c :: rest) with
    | some k => ' ' :: scanReplaceF m fuel (rest.drop (k - 1))
    | none => c :: scanReplaceF m fuel rest

def scanReplace (m : Str → Option Nat) (s : Str) : Str :=
  scanReplaceF m s.length s

/-- As `scanReplace` but threading the character preceding the scan position in
the original string, for `\b`-anchored patterns. -/
def scanReplaceBF (m : Option Char → Str → Option Nat) :
    Nat → Option Char → Str → Str
  | _, _, [] => []
  | 0, _, s => s
  | fuel + 1, prev, c :: rest =>
    match m prev (c :: rest) with
    | some k =>
      ' ' :: scanReplaceBF m fuel (((c :: rest).take k).getLast?) (rest.drop (k - 1))
    | none => c :: scanReplaceBF m fuel (some c) rest

def scanReplaceB (m : Option Char → Str → Option Nat) (prev : Option Char)
    (s : Str) : Str :=
  scanReplaceBF m s.length prev s

/-- Case-insensitive prefix test (`needle` against the head of `s`). -/
def startsWithCI : Str → Str → Bool
  | [], _ => true
  | _ :: _, [] => false
  | a :: as, b :: bs => eqCI a b && startsWithCI as bs

/-- Matcher for one case-insensitive literal (an escaped alias under `gi`). -/
def matchLitCI (needle : Str) (s : Str) : Option Nat :=
  if startsWithCI needle s then some needle.length else none

/-- Matcher for an ordered alternation of case-insensitive literals: the first
alternative that matches at the position wins (regex alternation order). -/
def matchAlts (alts : List Str) (s : Str) : Option Nat :=
  alts.findSome? (fun a => if startsWithCI a s then some a.length else none)

/-- Matcher for the flexible account pattern `c1\s*c2\s*…\s*cn` (`gi`):
each name character in order, any whitespace between consecutive ones. -/
def matchFlex : Str → Str → Option Nat
  | [], _ => some 0
  | _ :: _, [] => none
  | p :: ps, c :: cs =>
    if eqCI p c then
      match ps with
      | [] => some 1
      | _ :: _ =>
        let sp := (cs.takeWhile isJsSpace).length
        match matchFlex ps (cs.drop sp) with
        | some k => some (1 + sp + k)
        | none => none
    else none

/-- Matcher for `/\d+(?:\.\d+)?/`: a maximal digit run, then a fraction part
only when a digit follows the dot. -/
def matchNumeral (s : Str) : Option Nat :=
  match s with
  | [] => none
  | c :: _ =>
    if isDigitC c then
      let n1 := (s.takeWhile isDigitC).length
      match s.drop n1 with
      | p :: u =>
        if p = '.' then
          let n2 := (u.takeWhile isDigitC).length
          if n2 = 0 then some n1 else some (n1 + 1 + n2)
        else some n1
      | [] => some n1
    else none

/-- Matcher for `/\s+/` (used by the final whitespace collapse). -/
def matchSpaces (s : Str) : Option Nat :=
  match s with
  | [] => none
  | c :: _ => if isJsSpace c then some ((s.takeWhile isJsSpace).length) else none

/-- Exactly `n` digits from the head of `s` (the `\d{n}` quantifier). -/
def takeDigits : Nat → Str → Option Str
  | 0, _ => some []
  | Nat.succ _, [] => none
  | Nat.succ m, c :: t =>
    if isDigitC c then (takeDigits m t).map (fun d => c :: d) else none

def isSepDate (c : Char) : Bool := c == '/' || c == '-'

/-- Source: `\d{1,2}` greedily (two digits when available, else one), no constraint
after — the final day group of the unanchored date pattern. -/
def matchDayNB (s : Str) : Option (Nat × Str) :=
  match takeDigits 2 s with
  | some d => some (2, d)
  | none =>
    match takeDigits 1 s with
    | some d => some (1, d)
    | none => none

/-- Source: `\d{1,2}[\/\-]\d{1,2}` with greedy backtracking on the month group,
returning (consumed, month digits, day digits). -/
def matchMDNB (s : Str) : Option (Nat × Str × Str) :=
  let via2 :=
    match takeDigits 2 s with
    | some mm =>
      match s.drop 2 with
      | c :: t =>
        if isSepDate c then (matchDayNB t).map (fun (kd : Nat × Str) => (3 + kd.1, mm, kd.2)) else none
      | [] => none
    | none => none
  match via2 with
  | some r => some r
  | none =>
    match takeDigits 1 s with
    | some mm =>
      match s.drop 1 with
      | c :: t =>
        if isSepDate c then (matchDayNB t).map (fun (kd : Nat × Str) => (2 + kd.1, mm, kd.2)) else none
      | [] => none
    | none => none

/-- Source: `/\d{4}[\/\-]\d{1,2}[\/\-]\d{1,2}/` (no boundaries — the `cleanDescription`
and date-resolution pattern), with captures. -/
def matchFullDateCapNB (s : Str) : Option (Nat × Str × Str × Str) :=
  match takeDigits 4 s with
  | some yy =>
    match s.drop 4 with
    | c :: t =>
      if isSepDate c then (matchMDNB t).map (fun r => (5 + r.1, yy, r.2.1, r.2.2)) else none
    | [] => none
  | none => none

def matchFullDateNB (s : Str) : Option Nat :=
  (matchFullDateCapNB s).map (fun r => r.1)

/-- The trailing `\b` after a digit: the next character must not be a word
character (or the string ends). -/
def endBoundary (s : Str) : Bool :=
  match s with
  | [] => true
  | c :: _ => !isWordC c

/-- Source: `\d{1,2}\b` with greedy backtracking (two digits if the boundary then
holds, else one digit if the boundary holds). -/
def matchDayB (t : Str) : Option Nat :=
  let via2 :=
    match takeDigits 2 t with
    | some _ => if endBoundary (t.drop 2) then some 2 else none
    | none => none
  match via2 with
  | some k => some k
  | none =>
    match takeDigits 1 t with
    | some _ => if endBoundary (t.drop 1) then some 1 else none
    | none => none

/-- Source: `\d{1,2}[\/\-]\d{1,2}\b` with full backtracking over both groups. -/
def matchMDB (s : Str) : Option Nat :=
  let via2 :=
    match takeDigits 2 s with
    | some _ =>
      match s.drop 2 with
      | c :: t => if isSepDate c then (matchDayB t).map (fun k => 3 + k) else none
      | [] => none
    | none => none
  match via2 with
  | some r => some r
  | none =>
    match takeDigits 1 s with
    | some _ =>
      match s.drop 1 with
      | c :: t => if isSepDate c then (matchDayB t).map (fun k => 2 + k) else none
      | [] => none
    | none => none

/-- Source: `/\b\d{4}[\/\-]\d{1,2}[\/\-]\d{1,2}\b/` (the amount-scan date mask). -/
def matchFullDateB (prev : Option Char) (s : Str) : Option Nat :=
  if boundaryOK prev then
    match takeDigits 4 s with
    | some _ =>
      match s.drop 4 with
      | c :: t => if isSepDate c then (matchMDB t).map (fun k => 5 + k) else none
      | [] => none
    | none => none
  else none

/-- Source: `/\b\d{1,2}[\/\-]\d{1,2}\b/` (the short-date amount mask). -/
def matchShortDateB (prev : Option Char) (s : Str) : Option Nat :=
  if boundaryOK prev then matchMDB s else none

def digitVal (c : Char) : Nat := c.toNat - 48

def natOfDigits (ds : Str) : Nat := ds.foldl (fun n c => 10 * n + digitVal c) 0

/-- The value `Number` gives the first `/(\d+(?:\.\d+)?)/` match, if any. -/
def firstNumeralQ (s : Str) : Option ℚ :=
  match s with
  | [] => none
  | c :: t =>
    if isDigitC c then
      let intDigits := s.takeWhile isDigitC
      let intVal : ℚ := (natOfDigits intDigits : ℚ)
      match s.drop intDigits.length with
      | p :: u =>
        if p = '.' then
          let fds := u.takeWhile isDigitC
          if fds = [] then some intVal
          else some (intVal + (natOfDigits fds : ℚ) / ((10 : ℚ) ^ fds.length))
        else some intVal
      | [] => some intVal
    else firstNumeralQ t

/-- Source: `(?:$|[^\d])` — the trailing guard of the short-date capture pattern. -/
def endNonDigit (s : Str) : Bool :=
  match s with
  | [] => true
  | c :: _ => !isDigitC c

/-- Source: `(\d{1,2})(?:$|[^\d])` with greedy backtracking, capturing the day. -/
def matchDayCapD (t : Str) : Option Str :=
  let via2 :=
    match takeDigits 2 t with
    | some dd => if endNonDigit (t.drop 2) then some dd else none
    | none => none
  match via2 with
  | some dd => some dd
  | none =>
    match takeDigits 1 t with
    | some dd => if endNonDigit (t.drop 1) then some dd else none
    | none => none

/-- Source: `(\d{1,2})[\/\-](\d{1,2})(?:$|[^\d])`, capturing month and day. -/
def matchMDCapD (s : Str) : Option (Str × Str) :=
  let via2 :=
    match takeDigits 2 s with
    | some mm =>
      match s.drop 2 with
      | c :: t =>
        if isSepDate c then (matchDayCapD t).map (fun dd => (mm, dd)) else none
      | [] => none
    | none => none
  match via2 with
  | some r => some r
  | none =>
    match takeDigits 1 s with
    | some mm =>
      match s.drop 1 with
      | c :: t =>
        if isSepDate c then (matchDayCapD t).map (fun dd => (mm, dd)) else none
      | [] => none
    | none => none

/-- First match of `/(\d{4})[\/\-](\d{1,2})[\/\-](\d{1,2})/` in `s`. -/
def findFullDateCap (s : Str) : Option (Str × Str × Str) :=
  match s with
  | [] => none
  | _ :: t =>
    match matchFullDateCapNB s with
    | some r => some (r.2.1, r.2.2.1, r.2.2.2)
    | none => findFullDateCap t

/-- First match of `/(?:^|[^\d])(\d{1,2})[\/\-](\d{1,2})(?:$|[^\d])/`:
at position 0 the `^` alternative is tried first, afterwards each position
consumes one non-digit before the digit groups. -/
def findShortDateCapAux : Str → Option (Str × Str)
  | [] => none
  | c :: t =>
    if !isDigitC c then
      match matchMDCapD t with
      | some r => some r
      | none => findShortDateCapAux t
    else findShortDateCapAux t

def findShortDateCap (s : Str) : Option (Str × Str) :=
  match matchMDCapD s with
  | some r => some r
  | none => findShortDateCapAux s

/-- Source: `String.prototype.padStart(2, '0')` for the capture strings (length ≤ 2). -/
def pad2 (s : Str) : Str :=
  if 2 ≤ s.length then s else List.replicate (2 - s.length) '0' ++ s

def isLeap (y : Nat) : Bool := y % 4 = 0 && (y % 100 ≠ 0 || y % 400 = 0)

def daysInMonth (y m : Nat) : Nat :=
  if m = 2 then (if isLeap y then 29 else 28)
  else if m = 4 || m = 6 || m = 9 || m = 11 then 30
  else 31

/-- One day back in the proleptic Gregorian calendar — the effect of
`d.setDate(d.getDate() - 1)` on a valid local date. -/
def prevDay : Nat × Nat × Nat → Nat × Nat × Nat
  | (y, m, d) =>
    if 2 ≤ d then (y, m, d - 1)
    else if 2 ≤ m then (y, m - 1, daysInMonth y (m - 1))
    else (y - 1, 12, 31)

/-- Decimal digits of a natural number (as `String(n)`). -/
def natDigitsF : Nat → Nat → Str
  | 0, _ => []
  | fuel + 1, n =>
    if n < 10 then [Char.ofNat (48 + n)]
    else natDigitsF fuel (n / 10) ++ [Char.ofNat (48 + n % 10)]

def natDigits (n : Nat) : Str := natDigitsF (n + 1) n

def pad2N (n : Nat) : Str := pad2 (natDigits n)

/-- Source: `getLocalDateString`: `YYYY-MM-DD` with zero-padded month and day. -/
def getLocalDateString (y m d : Nat) : Str :=
  natDigits y ++ ('-' :: pad2N m) ++ ('-' :: pad2N d)

/-- Strict `YYYY-MM-DD` shape of the caller-supplied today string (the shape
`getLocalDateString` itself produces). -/
def parseIsoDate (s : Str) : Option (Nat × Nat × Nat) :=
  match takeDigits 4 s with
  | some yy =>
    match s.drop 4 with
    | c1 :: t1 =>
      if c1 = '-' then
        match takeDigits 2 t1 with
        | some mm =>
          match t1.drop 2 with
          | c2 :: t2 =>
            if c2 = '-' then
              match takeDigits 2 t2 with
              | some dd =>
                if t2.drop 2 = [] then
                  some (natOfDigits yy, natOfDigits mm, natOfDigits dd)
                else none
              | none => none
            else none
          | [] => none
        | none => none
      else none
    | [] => none
  | none => none

/-- Source: `new Date(today)` followed by `setDate(getDate() - n)` and
`getLocalDateString`, on a well-formed `today` (a non-negative UTC offset is
assumed so that the ISO string round-trips; an ill-formed `today` gives the
`NaN-NaN-NaN` rendering of an Invalid Date). -/
def shiftBack (today : Str) (n : Nat) : Str :=
  match parseIsoDate today with
  | some ymd =>
    let r := prevDay^[n] ymd
    getLocalDateString r.1 r.2.1 r.2.2
  | none => "NaN-NaN-NaN".toList

/-- The date block of `parseTransactionLocal` (identical in both snapshots):
昨天 shifts one day back, otherwise 前天 two days, otherwise a full explicit
date verbatim (zero-padded), otherwise a short date with the current year,
otherwise today. -/
def resolveDate (text today : Str) : Str :=
  if containsSub text ("昨天".toList) then shiftBack today 1
  else if containsSub text ("前天".toList) then shiftBack today 2
  else
    match findFullDateCap text with
    | some r => r.1 ++ ('-' :: pad2 r.2.1) ++ ('-' :: pad2 r.2.2)
    | none =>
      match findShortDateCap text with
      | some r => (today.take 4) ++ ('-' :: pad2 r.1) ++ ('-' :: pad2 r.2)
      | none => today

/-- Source: `/今天|昨日|昨天|前天|today|yesterday/gi`, in alternation order. -/
def relativeWordAlts : List Str :=
  ["今天", "昨日", "昨天", "前天", "today", "yesterday"].map String.toList

/-- Source: `/(現金|cash|帳戶|账户|戶頭|银行|銀行|bank|acc|account)/gi` — the account
keyword sweep of `cleanDescription` (note `acc` precedes `account`). -/
def accountKeywordAlts : List Str :=
  ["現金", "cash", "帳戶", "账户", "戶頭", "银行", "銀行", "bank", "acc",
    "account"].map String.toList

/-- One account's replacement round inside `cleanDescription`: the flexible
spelling pattern, then every alias of length ≥ 2 as a literal. -/
def stripOneAccount (r : Str) (account : Str) : Str :=
  if account = [] then r
  else
    let fx := flexChars account
    let r1 := if fx = [] then r else scanReplace (matchFlex fx) r
    ((accountAliases account).filter (fun a => 2 ≤ a.length)).foldl
      (fun acc2 a => scanReplace (matchLitCI a) acc2) r1

/-- Source: `cleanDescription` (identical in both snapshots): strip full dates,
numerals, relative-date words, account mention patterns and account keywords,
then collapse whitespace and trim. -/
def cleanDescription (text : Str) (accounts : List Str) : Str :=
  let r1 := scanReplace matchFullDateNB text
  let r2 := scanReplace matchNumeral r1
  let r3 := scanReplace (matchAlts relativeWordAlts) r2
  let r4 := accounts.foldl stripOneAccount r3
  let r5 := scanReplace (matchAlts accountKeywordAlts) r4
  jsTrim (scanReplace matchSpaces r5)

inductive TxType where
  | income
  | expense
  | transfer
deriving DecidableEq, Repr

/-- A category as the parser consumes it: a name and an optional type tag
(an absent tag means usable for any type). -/
structure Category where
  name : Str
  type : Option TxType
deriving DecidableEq, Repr

/-- The `ParsedInput` output contract; absent JSON/object fields are `none`. -/
structure ParsedInput where
  amount : Option ℚ
  description : Option Str
  type : Option TxType
  accountName : Option Str
  toAccountName : Option Str
  categoryName : Option Str
  date : Option Str
deriving DecidableEq, Repr

/-- Case-insensitive substring test for the fixed `pickByPattern` regexes:
`/(alt1|alt2|…)/i.test(c)` holds when any alternative occurs in `c`. -/
def testAltsCI (c : Str) (alts : List Str) : Bool :=
  alts.any (fun a => (List.range (c.length)).any (fun i => startsWithCI a (c.drop i)))

/-- Source: `pickByPattern`: first candidate category whose name the pattern matches. -/
def pickByPattern (categories : List Str) (alts : List Str) : Option Str :=
  categories.find? (fun c => testAltsCI c alts)

def FOOD_KEYWORDS : List Str :=
  ["早餐", "午餐", "晚餐", "餐", "便當", "飲料", "咖啡", "宵夜", "吃飯"].map String.toList

def DAILY_KEYWORDS : List Str :=
  ["超商", "全聯", "家樂福", "日用品", "文具", "用品", "購物", "生活"].map String.toList

def HOUSE_KEYWORDS : List Str :=
  ["房租", "租金", "水費", "電費", "瓦斯", "家電", "家具", "修繕"].map String.toList

def PLAY_KEYWORDS : List Str :=
  ["電影", "遊戲", "ktv", "唱歌", "聚餐", "旅遊", "娛樂", "演唱會", "串流"].map String.toList

def HEALTH_KEYWORDS : List Str :=
  ["看醫生", "診所", "醫院", "藥", "掛號", "健檢", "牙醫", "醫療"].map String.toList

def SALARY_KEYWORDS : List Str := ["薪水", "薪資", "月薪", "年終"].map String.toList

def BONUS_KEYWORDS : List Str := ["獎金", "紅包", "分紅"].map String.toList

def INVEST_KEYWORDS : List Str :=
  ["股利", "利息", "投資", "基金", "股票", "配息"].map String.toList

def TRANSFER_KEYWORDS : List Str :=
  ["轉帳", "轉賬", "轉到", "轉入", "轉出", "匯款", "匯入", "匯出"].map String.toList

/-- The category patterns of `inferCategoryFromText`, in source order. -/
def salaryPat : List Str := ["薪", "salary", "工作", "收入"].map String.toList
def bonusPat : List Str := ["獎", "紅包", "bonus"].map String.toList
def investPat : List Str :=
  ["投資", "利息", "股利", "基金", "股票", "配息", "invest"].map String.toList
def foodPat : List Str := ["餐", "飲", "食", "food", "meal", "eat"].map String.toList
def transportPat : List Str :=
  ["交", "車", "運", "transport", "traffic", "commute"].map String.toList
def dailyPat : List Str := ["日常", "生活", "購物", "用品", "雜支", "shop"].map String.toList
def housePat : List Str := ["居家", "住", "房", "租", "家", "home", "house"].map String.toList
def playPat : List Str := ["娛", "樂", "遊", "電影", "休閒", "play", "fun"].map String.toList
def healthPat : List Str := ["醫", "療", "健康", "health", "clinic"].map String.toList

/-- First index of a substring (`String.prototype.indexOf`). -/
def indexOfSubAux (hay needle : Str) (i : Nat) : Option Nat :=
  if needle.isPrefixOf hay then some i
  else
    match hay with
    | [] => none
    | _ :: t => indexOfSubAux t needle (i + 1)

def indexOfSub (hay needle : Str) : Option Nat := indexOfSubAux hay needle 0

/-- Source: `isLocalParseConfident` (textually identical in both snapshots). -/
def isLocalParseConfident (parsed : ParsedInput) (input : Str) : Bool :=
  let hasAmount := match parsed.amount with
    | some a => decide (0 < a)
    | none => false
  let hasSource := truthyStr parsed.accountName
  let hasTarget := (!(parsed.type == some TxType.transfer)) ||
    (truthyStr parsed.toAccountName && !(parsed.toAccountName == parsed.accountName))
  let hasCategory := (parsed.type == some TxType.transfer) || truthyStr parsed.categoryName
  let hasDescription := match parsed.description with
    | some d => !(jsTrim d == [])
    | none => false
  let shortInputFastPath := decide ((jsTrim input).length ≤ 28) &&
    hasAmount && hasSource && hasCategory
  (hasAmount && hasSource && hasTarget && hasCategory && hasDescription) ||
    shortInputFastPath

/-- The environment a `parseTransactionAI` call runs in: the caller flag, the
`API_KEY` presence, whether the client constructor succeeded, and the local
date the function reads from the clock. -/
structure AiEnv where
  localOnly : Bool
  apiKeyPresent : Bool
  clientOk : Bool
  today : Str

/-- The observable fate of the time-boxed remote call: rejection, losing the
race against the timer, response text that `JSON.parse` rejects, or a parsed
structured object. The first three all surface as a caught exception. -/
inductive RemoteOutcome where
  | fails
  | timesOut
  | malformed
  | returns (p : ParsedInput)

/-- The remote outcomes that raise (and are caught). -/
def RemoteOutcome.isFailure : RemoteOutcome → Bool
  | RemoteOutcome.returns _ => false
  | _ => true

/-- Source: `{...fallback, ...parsed}`: a field of the JSON-parsed remote object
overwrites the fallback field exactly when present. -/
def spreadMerge (fallback parsed : ParsedInput) : ParsedInput :=
  { amount := jsNullish parsed.amount fallback.amount,
    description := jsNullish parsed.description fallback.description,
    type := jsNullish parsed.type fallback.type,
    accountName := jsNullish parsed.accountName fallback.accountName,
    toAccountName := jsNullish parsed.toAccountName fallback.toAccountName,
    categoryName := jsNullish parsed.categoryName fallback.categoryName,
    date := jsNullish parsed.date fallback.date }

/-- The two masking replaces of the amount scan: `\b`-anchored full dates,
then `\b`-anchored short dates, each replaced by one space. -/
def maskDates (text : Str) : Str :=
  scanReplaceB matchShortDateB none (scanReplaceB matchFullDateB none text)

/-- The amount block of `parseTransactionLocal` (identical in both
snapshots): mask date-like substrings, then take the first numeral. -/
def amountOfText (text : Str) : Option Rat :=
  firstNumeralQ (maskDates text)

/-- The character preceding the scan position after walking over `pre`
without a match (used to state how `\b` scanners cross a clean prefix). -/
def prevAfter (prev : Option Char) (pre : Str) : Option Char :=
  match pre.getLast? with
  | some c => some c
  | none => prev

/-- Source: `categories.filter((c) => !c.type || c.type === type).map((c) => c.name)`. -/
def availableCategoryNames (categories : List Category) (t : TxType) : List Str :=
  (categories.filter (fun c => c.type = none || c.type = some t)).map Category.name

namespace V1

def INCOME_KEYWORDS : List Str :=
  ["薪水", "薪資", "收入", "進帳", "入帳", "獎金", "退款"].map String.toList

def TRANSPORT_KEYWORDS : List Str :=
  ["捷運", "公車", "計程車", "taxi", "uber", "高鐵", "火車", "停車", "油錢",
    "加油"].map String.toList

/-- Source: `inferCategoryFromText` of `geminiService.ts`. A direct (verbatim) category
name wins when truthy; otherwise the ordered keyword groups fire. -/
def inferCategoryFromText (text : Str) (categories : List Str) (type : TxType) :
    Option Str :=
  let direct := categories.find? (fun c => containsSub text c)
  if truthyStr direct then direct
  else if type = TxType.income then
    if hasAnyToken text SALARY_KEYWORDS then pickByPattern categories salaryPat
    else if hasAnyToken text BONUS_KEYWORDS then pickByPattern categories bonusPat
    else if hasAnyToken text INVEST_KEYWORDS then pickByPattern categories investPat
    else categories.head?
  else
    if hasAnyToken text FOOD_KEYWORDS then pickByPattern categories foodPat
    else if hasAnyToken text TRANSPORT_KEYWORDS then pickByPattern categories transportPat
    else if hasAnyToken text DAILY_KEYWORDS then pickByPattern categories dailyPat
    else if hasAnyToken text HOUSE_KEYWORDS then pickByPattern categories housePat
    else if hasAnyToken text PLAY_KEYWORDS then pickByPattern categories playPat
    else if hasAnyToken text HEALTH_KEYWORDS then pickByPattern categories healthPat
    else none

/-- The type block of `geminiService.ts`'s `parseTransactionLocal`. -/
def typeOf (text : Str) : TxType :=
  let lower := text.map jsLower
  if TRANSFER_KEYWORDS.any (fun k => containsSub text k) then TxType.transfer
  else if INCOME_KEYWORDS.any (fun k => containsSub text k) ||
      containsSub lower ("income".toList) then TxType.income
  else TxType.expense

/-- Source: `mentionedAccounts[0] || findBestAccountMatch(text, accounts)`. -/
def sourceOf (text : Str) (accounts : List Str) : Option Str :=
  jsOrStr (findAccountMentionsInText text accounts).head?
    (findBestAccountMatch text accounts)

/-- The transfer-target block of `geminiService.ts`'s `parseTransactionLocal`. -/
def toAccountOf (text : Str) (accounts : List Str) : Option Str :=
  if typeOf text = TxType.transfer then
    (findAccountMentionsInText text accounts).find?
      (fun a => !(some a == sourceOf text accounts))
  else none

/-- Source: `parseTransactionLocal` of `geminiService.ts`. -/
def parseTransactionLocal (input : Str) (accounts : List Str)
    (categories : List Category) (today : Str) : ParsedInput :=
  let text := jsTrim input
  { amount := amountOfText text,
    type := some (typeOf text),
    accountName := sourceOf text accounts,
    toAccountName := toAccountOf text accounts,
    categoryName :=
      if typeOf text = TxType.transfer then some ("轉帳".toList)
      else inferCategoryFromText text
        (availableCategoryNames categories (typeOf text)) (typeOf text),
    description := some (jsOrS (cleanDescription text accounts) text),
    date := some (resolveDate text today) }

/-- The merge step of `parseTransactionAI` in `geminiService.ts` (executed when
the remote result wins the race and parses). -/
def mergeRemote (fallback parsed : ParsedInput) (input : Str)
    (accounts : List Str) : ParsedInput :=
  let merged := spreadMerge fallback parsed
  let explicitMentions := findAccountMentionsInText input accounts
  let resolvedAccount := match merged.accountName with
    | some s => if s = [] then none else findBestAccountMatch s accounts
    | none => none
  let resolvedToAccount := match merged.toAccountName with
    | some s => if s = [] then none else findBestAccountMatch s accounts
    | none => none
  let cleanDesc := cleanDescription
    (match merged.description with
      | some d => if d = [] then input else d
      | none => input) accounts
  let forcedSource := explicitMentions.head?
  let forcedTarget :=
    if merged.type == some TxType.transfer then
      explicitMentions.find? (fun a => !(some a == forcedSource))
    else none
  { merged with
    accountName := jsNullish forcedSource (jsNullish resolvedAccount fallback.accountName),
    toAccountName :=
      jsNullish forcedTarget (jsNullish resolvedToAccount fallback.toAccountName),
    description := if cleanDesc = [] then fallback.description else some cleanDesc }

/-- Source: `parseTransactionAI` of `geminiService.ts`, with the remote call abstracted
into its observable outcome. The second component records whether the remote
call was issued. -/
def parseTransactionAI (input : Str) (accounts : List Str)
    (categories : List Category) (env : AiEnv) (outcome : RemoteOutcome) :
    Option ParsedInput × Bool :=
  if jsTrim input = [] then (none, false)
  else
    let fallback := parseTransactionLocal input accounts categories env.today
    if env.localOnly || !env.apiKeyPresent then (some fallback, false)
    else if isLocalParseConfident fallback input then (some fallback, false)
    else if !env.clientOk then (some fallback, false)
    else
      match outcome with
      | RemoteOutcome.returns p => (some (mergeRemote fallback p input accounts), true)
      | _ => (some fallback, true)

end V1

namespace V2

def INCOME_KEYWORDS : List Str :=
  ["薪水", "薪資", "收入", "進帳", "入帳", "獎金", "退款", "紅包", "股利",
    "股息", "配息", "分紅", "回饋"].map String.toList

def TRANSPORT_KEYWORDS : List Str :=
  ["交通", "車資", "車錢", "捷運", "公車", "計程車", "taxi", "uber", "高鐵",
    "火車", "停車", "過路費", "油錢", "加油"].map String.toList

/-- Source: `TRANSFER_VERBS = /(轉帳|轉賬|轉出|轉入|轉|匯款|匯出|匯入|匯|提領|提款|領錢|領)/`:
`.test` holds when any alternative occurs. -/
def transferVerbAlts : List Str :=
  ["轉帳", "轉賬", "轉出", "轉入", "轉", "匯款", "匯出", "匯入", "匯", "提領",
    "提款", "領錢", "領"].map String.toList

/-- Source: `INCOME_VERBS = /(收到|收|入帳|進帳|存入|領到|拿到|給我|發給我)/`. -/
def incomeVerbAlts : List Str :=
  ["收到", "收", "入帳", "進帳", "存入", "領到", "拿到", "給我", "發給我"].map
    String.toList

/-- Source: `TRANSFER_CONNECTORS = /(到|至|給|進|入)/g` — all single characters. -/
def transferConnectors : Str := "到至給進入".toList

/-- The extra transport regex of the `part_000` category inferencer. -/
def transportExtraAlts : List Str :=
  ["交通", "車資", "車錢", "捷運", "公車", "計程", "uber", "高鐵", "火車",
    "停車", "過路費", "油錢", "加油"].map String.toList

/-- Source: `findAccountHitsInText` from `part_000`: for each account, the least index
in the normalized text at which one of its aliases (length ≥ 2) occurs; hits
sorted by ascending index. The flexible-regex branch is dead code in the
source: `text.match(re)` with a global regex returns a plain array whose
`index` property is always `undefined`, so it never updates `bestIndex`. -/
def findAccountHitsInText (text : Str) (accounts : List Str) : List (Str × Nat) :=
  let normalizedText := normalizeLoose text
  let hits := accounts.foldl
    (fun acc name =>
      let aliases := (accountAliases name).filter (fun a => 2 ≤ a.length)
      let best := aliases.foldl
        (fun b a =>
          match indexOfSub normalizedText a with
          | some i =>
            match b with
            | none => some i
            | some j => if i < j then some i else some j
          | none => b)
        none
      match best with
      | some i => acc ++ [(name, i)]
      | none => acc)
    []
  sortAscN hits

/-- Source: `extractTransferAccounts` from `part_000`: split at the last connector and
resolve each side; fall back to the first two hits in text order. -/
def extractTransferAccounts (text : Str) (accounts : List Str) :
    Option Str × Option Str :=
  let connIdxs := (List.range text.length).filter
    (fun i =>
      match text.drop i with
      | c :: _ => transferConnectors.contains c
      | [] => false)
  let byHits : Option Str × Option Str :=
    let hits := findAccountHitsInText text accounts
    match hits with
    | h0 :: h1 :: _ => (some h0.1, some h1.1)
    | h0 :: [] => (some h0.1, none)
    | [] => (none, none)
  match connIdxs.getLast? with
  | some i =>
    let left := text.take i
    let right := text.drop (i + 1)
    let fromByLeft := findBestAccountMatch left accounts
    let toByRight := findBestAccountMatch right accounts
    if truthyStr fromByLeft || truthyStr toByRight then (fromByLeft, toByRight)
    else byHits
  | none => byHits

/-- Source: `inferCategoryFromText` of `part_000` (transport additionally tests a raw
case-insensitive regex). -/
def inferCategoryFromText (text : Str) (categories : List Str) (type : TxType) :
    Option Str :=
  let direct := categories.find? (fun c => containsSub text c)
  if truthyStr direct then direct
  else if type = TxType.income then
    if hasAnyToken text SALARY_KEYWORDS then pickByPattern categories salaryPat
    else if hasAnyToken text BONUS_KEYWORDS then pickByPattern categories bonusPat
    else if hasAnyToken text INVEST_KEYWORDS then pickByPattern categories investPat
    else categories.head?
  else
    if hasAnyToken text FOOD_KEYWORDS then pickByPattern categories foodPat
    else if hasAnyToken text TRANSPORT_KEYWORDS || testAltsCI text transportExtraAlts then
      pickByPattern categories transportPat
    else if hasAnyToken text DAILY_KEYWORDS then pickByPattern categories dailyPat
    else if hasAnyToken text HOUSE_KEYWORDS then pickByPattern categories housePat
    else if hasAnyToken text PLAY_KEYWORDS then pickByPattern categories playPat
    else if hasAnyToken text HEALTH_KEYWORDS then pickByPattern categories healthPat
    else none

/-- Source: `transferByVerb`: a transfer keyword or a `TRANSFER_VERBS` hit. -/
def transferByVerbOf (text : Str) : Bool :=
  TRANSFER_KEYWORDS.any (fun k => containsSub text k) ||
    hasAnyToken text transferVerbAlts

/-- Source: `incomeByKeyword` of `part_000`'s `parseTransactionLocal`. -/
def incomeByKeywordOf (text : Str) : Bool :=
  INCOME_KEYWORDS.any (fun k => containsSub text k) ||
    hasAnyToken text SALARY_KEYWORDS || hasAnyToken text BONUS_KEYWORDS ||
    hasAnyToken text INVEST_KEYWORDS || hasAnyToken text incomeVerbAlts ||
    containsSub (text.map jsLower) ("income".toList)

/-- Source: `hasTwoAccounts`: both directional sides resolved, and distinct. -/
def hasTwoAccountsOf (text : Str) (accounts : List Str) : Bool :=
  let directionalAccounts := extractTransferAccounts text accounts
  truthyStr directionalAccounts.1 && truthyStr directionalAccounts.2 &&
    !(directionalAccounts.1 == directionalAccounts.2)

/-- The type block of `part_000`'s `parseTransactionLocal`. -/
def typeOf (text : Str) (accounts : List Str) : TxType :=
  if hasTwoAccountsOf text accounts then TxType.transfer
  else if transferByVerbOf text &&
      2 ≤ (findAccountMentionsInText text accounts).length &&
      !incomeByKeywordOf text then TxType.transfer
  else if incomeByKeywordOf text then TxType.income
  else TxType.expense

/-- Source: `directionalAccounts.from || mentionedAccounts[0] || findBestAccountMatch`. -/
def sourceOf (text : Str) (accounts : List Str) : Option Str :=
  jsOrStr (extractTransferAccounts text accounts).1
    (jsOrStr (findAccountMentionsInText text accounts).head?
      (findBestAccountMatch text accounts))

/-- The transfer-target block of `part_000`: the directional target, else the
first mention differing from the source, else the implicit cash target. -/
def toAccountOf (text : Str) (accounts : List Str) : Option Str :=
  if typeOf text accounts = TxType.transfer then
    jsOrStr (extractTransferAccounts text accounts).2
      (jsOrStr
        ((findAccountMentionsInText text accounts).find?
          (fun a => !(some a == sourceOf text accounts)))
        (if containsSub text ("現金".toList) then
          findBestAccountMatch ("現金".toList) accounts
        else none))
  else none

/-- Source: `parseTransactionLocal` of `part_000`, with directional transfer
resolution and the implicit cash target. -/
def parseTransactionLocal (input : Str) (accounts : List Str)
    (categories : List Category) (today : Str) : ParsedInput :=
  let text := jsTrim input
  { amount := amountOfText text,
    type := some (typeOf text accounts),
    accountName := sourceOf text accounts,
    toAccountName := toAccountOf text accounts,
    categoryName :=
      if typeOf text accounts = TxType.transfer then some ("轉帳".toList)
      else inferCategoryFromText text
        (availableCategoryNames categories (typeOf text accounts))
        (typeOf text accounts),
    description := some (jsOrS (cleanDescription text accounts) text),
    date := some (resolveDate text today) }

/-- The merge step of `parseTransactionAI` in `part_000`: the account override
of `V1.mergeRemote` plus the strong-keyword category guard. -/
def mergeRemote (fallback parsed : ParsedInput) (input : Str)
    (accounts : List Str) : ParsedInput :=
  let merged := spreadMerge fallback parsed
  let hasStrongIncomeHint := hasAnyToken input SALARY_KEYWORDS ||
    hasAnyToken input BONUS_KEYWORDS || hasAnyToken input INVEST_KEYWORDS ||
    hasAnyToken input incomeVerbAlts
  let hasStrongExpenseHint := hasAnyToken input FOOD_KEYWORDS ||
    hasAnyToken input TRANSPORT_KEYWORDS || hasAnyToken input DAILY_KEYWORDS ||
    hasAnyToken input HOUSE_KEYWORDS || hasAnyToken input PLAY_KEYWORDS ||
    hasAnyToken input HEALTH_KEYWORDS
  let forcedCategoryName : Option Str :=
    if merged.type == some TxType.income && hasStrongIncomeHint &&
        truthyStr fallback.categoryName then fallback.categoryName
    else if merged.type == some TxType.expense && hasStrongExpenseHint &&
        truthyStr fallback.categoryName then fallback.categoryName
    else none
  let explicitMentions := findAccountMentionsInText input accounts
  let resolvedAccount := match merged.accountName with
    | some s => if s = [] then none else findBestAccountMatch s accounts
    | none => none
  let resolvedToAccount := match merged.toAccountName with
    | some s => if s = [] then none else findBestAccountMatch s accounts
    | none => none
  let cleanDesc := cleanDescription
    (match merged.description with
      | some d => if d = [] then input else d
      | none => input) accounts
  let forcedSource := explicitMentions.head?
  let forcedTarget :=
    if merged.type == some TxType.transfer then
      explicitMentions.find? (fun a => !(some a == forcedSource))
    else none
  { merged with
    accountName := jsNullish forcedSource (jsNullish resolvedAccount fallback.accountName),
    toAccountName :=
      jsNullish forcedTarget (jsNullish resolvedToAccount fallback.toAccountName),
    categoryName :=
      jsOrStr forcedCategoryName (jsOrStr merged.categoryName fallback.categoryName),
    description := if cleanDesc = [] then fallback.description else some cleanDesc }

/-- Source: `parseTransactionAI` of `part_000`: no confidence gate — only the
transfer-specific bypass skips the remote call. -/
def parseTransactionAI (input : Str) (accounts : List Str)
    (categories : List Category) (env : AiEnv) (outcome : RemoteOutcome) :
    Option ParsedInput × Bool :=
  if jsTrim input = [] then (none, false)
  else
    let fallback := parseTransactionLocal input accounts categories env.today
    if env.localOnly || !env.apiKeyPresent then (some fallback, false)
    else
      let shouldBypassAiForTransfer := fallback.type == some TxType.transfer &&
        truthyStr fallback.accountName && truthyStr fallback.toAccountName &&
        !(fallback.accountName == fallback.toAccountName)
      if shouldBypassAiForTransfer then (some fallback, false)
      else if !env.clientOk then (some fallback, false)
      else
        match outcome with
        | RemoteOutcome.returns p => (some (mergeRemote fallback p input accounts), true)
        | _ => (some fallback, true)

end V2

/-- The distinct account names the `part_000` local parser resolves from the
text: both directional sides and the scored mentions, without duplicates. -/
def V2.resolvedAccountNames (text : Str) (accounts : List Str) : List Str :=
  (Option.toList (V2.extractTransferAccounts text accounts).1 ++
    Option.toList (V2.extractTransferAccounts text accounts).2 ++
    findAccountMentionsInText text accounts).dedup


/-! ## Auxiliary lemmas -/

theorem pushUnique_nodup {l : List Str} (h : l.Nodup) (s : Str) :
    (pushUnique l s).Nodup := by
  unfold pushUnique
  split
  · exact h
  · next hs => simpa [List.nodup_append] using ⟨h, hs⟩

theorem foldl_pushUnique_nodup (l : List Str) :
    ∀ acc : List Str, acc.Nodup → (l.foldl pushUnique acc).Nodup := by
  induction l with
  | nil => intro acc h; exact h
  | cons x t ih => intro acc h; exact ih _ (pushUnique_nodup h x)

theorem dedupKeepFirst_nodup (l : List Str) : (dedupKeepFirst l).Nodup :=
  foldl_pushUnique_nodup l [] List.nodup_nil

theorem mentions_nodup (text : Str) (accounts : List Str) :
    (findAccountMentionsInText text accounts).Nodup :=
  dedupKeepFirst_nodup _

theorem two_distinct_dedup {α : Type} [DecidableEq α] {a b : α} {l : List α}
    (hab : a ≠ b) (ha : a ∈ l) (hb : b ∈ l) : 2 ≤ l.dedup.length := by
  have ha' : a ∈ l.dedup := List.mem_dedup.mpr ha
  have hb' : b ∈ l.dedup := List.mem_dedup.mpr hb
  match hl : l.dedup with
  | [] => rw [hl] at ha'; cases ha'
  | [x] =>
    rw [hl] at ha' hb'
    simp at ha' hb'
    exact absurd (ha'.trans hb'.symm) hab
  | x :: y :: t => simp [Nat.succ_le_succ, Nat.le_add_left]

/-- If the mention list starts with `m`, the resolved source is `m` itself
(`mentionedAccounts[0] || findBestAccountMatch` both evaluate to the head). -/
theorem V1.sourceOf_eq_head {text : Str} {accounts : List Str} {m : Str}
    {rest : List Str} (hm : findAccountMentionsInText text accounts = m :: rest) :
    V1.sourceOf text accounts = some m := by
  unfold V1.sourceOf findBestAccountMatch
  rw [hm]
  unfold jsOrStr
  simp only [List.head?_cons]
  split <;> rfl

/-! ## C1 -/

/-- C1 (counterexample): on `轉ab到abcd` with accounts `ab`, `cd`, the
`part_000` parser classifies a transfer whose resolved source and target are
both `ab` — the last-connector directional split resolves both sides to the
same account. -/
theorem claim1_counterexample :
    (V2.parseTransactionLocal ("轉ab到abcd".toList) ["ab".toList, "cd".toList] []
        ("2024-03-05".toList)).type = some TxType.transfer ∧
      (V2.parseTransactionLocal ("轉ab到abcd".toList) ["ab".toList, "cd".toList] []
        ("2024-03-05".toList)).accountName = some ("ab".toList) ∧
      (V2.parseTransactionLocal ("轉ab到abcd".toList) ["ab".toList, "cd".toList] []
        ("2024-03-05".toList)).toAccountName = some ("ab".toList) := by
  decide!

/-! ## C2 -/

/-- C2 (counterexample): `轉帳100` with an empty account list resolves zero
accounts, yet the `geminiService.ts` parser classifies it as a transfer on the
keyword alone. -/
theorem claim2_counterexample :
    (V1.parseTransactionLocal ("轉帳100".toList) [] [] ("2024-03-05".toList)).type =
        some TxType.transfer ∧
      findAccountMentionsInText (jsTrim ("轉帳100".toList)) [] = [] := by
  decide!

/-- C2 (amended): in the `part_000` parser, a transfer classification implies
at least two distinct resolved accounts (either both directional sides, or two
scored mentions). -/
theorem claim2_transfer_needs_two_accounts (input : Str) (accounts : List Str)
    (categories : List Category) (today : Str)
    (h : (V2.parseTransactionLocal input accounts categories today).type =
      some TxType.transfer) :
    2 ≤ (V2.resolvedAccountNames (jsTrim input) accounts).length := by
  have ht : V2.typeOf (jsTrim input) accounts = TxType.transfer :=
    Option.some.inj h
  unfold V2.typeOf at ht
  by_cases h2 : V2.hasTwoAccountsOf (jsTrim input) accounts = true
  · unfold V2.hasTwoAccountsOf at h2
    simp only [Bool.and_eq_true, Bool.not_eq_true', beq_eq_false_iff_ne] at h2
    obtain ⟨⟨hf, ht2⟩, hne⟩ := h2
    obtain ⟨f, hfe⟩ : ∃ f, (V2.extractTransferAccounts (jsTrim input) accounts).1 = some f := by
      cases hx : (V2.extractTransferAccounts (jsTrim input) accounts).1 with
      | none => rw [hx] at hf; cases hf
      | some v => exact ⟨v, rfl⟩
    obtain ⟨g, hge⟩ : ∃ g, (V2.extractTransferAccounts (jsTrim input) accounts).2 = some g := by
      cases hx : (V2.extractTransferAccounts (jsTrim input) accounts).2 with
      | none => rw [hx] at ht2; cases ht2
      | some v => exact ⟨v, rfl⟩
    have hfg : f ≠ g := by
      intro hcon
      rw [hfe, hge, hcon] at hne
      exact hne rfl
    refine two_distinct_dedup hfg ?_ ?_
    · simp [hfe]
    · simp [hge]
  · rw [if_neg h2] at ht
    by_cases h3 : (V2.transferByVerbOf (jsTrim input) &&
        decide (2 ≤ (findAccountMentionsInText (jsTrim input) accounts).length) &&
        !V2.incomeByKeywordOf (jsTrim input)) = true
    · simp only [Bool.and_eq_true, decide_eq_true_eq] at h3
      obtain ⟨⟨_, hlen⟩, _⟩ := h3
      obtain ⟨a, b, rest, hm⟩ : ∃ a b rest,
          findAccountMentionsInText (jsTrim input) accounts = a :: b :: rest := by
        match hx : findAccountMentionsInText (jsTrim input) accounts with
        | [] => rw [hx] at hlen; simp at hlen
        | [x] => rw [hx] at hlen; simp at hlen
        | x :: y :: r => exact ⟨x, y, r, rfl⟩
      have hnd := mentions_nodup (jsTrim input) accounts
      rw [hm] at hnd
      have hab : a ≠ b := by
        intro hcon
        rw [hcon] at hnd
        simp at hnd
      refine two_distinct_dedup hab ?_ ?_
      · simp [hm]
      · simp [hm]
    · rw [if_neg h3] at ht
      split at ht <;> cases ht

/-- C2 (witness). -/
theorem claim2_witness :
    2 ≤ (V2.resolvedAccountNames (jsTrim ("ab轉到cd 100".toList))
      ["ab".toList, "cd".toList]).length :=
  claim2_transfer_needs_two_accounts ("ab轉到cd 100".toList)
    ["ab".toList, "cd".toList] [] ("2024-03-05".toList) (by decide!)

/-! ## C3 -/

/-- A confident local parse has a positive amount, so its input cannot be
blank (an amount needs a digit surviving the trim). -/
theorem confident_trim_ne_nil (input : Str) (accounts : List Str)
    (categories : List Category) (today : Str)
    (hconf : isLocalParseConfident
      (V1.parseTransactionLocal input accounts categories today) input = true) :
    jsTrim input ≠ [] := by
  intro hnil
  have hA : (V1.parseTransactionLocal input accounts categories today).amount = none := by
    show amountOfText (jsTrim input) = none
    rw [hnil]
    rfl
  unfold isLocalParseConfident at hconf
  rw [hA] at hconf
  simp at hconf

/-- C3 (counterexample): `午餐180現金` yields a fully confident local parse,
yet the `part_000` `parseTransactionAI` — remote configured, local-only not
requested — still issues the remote call (second component `true`). -/
theorem claim3_counterexample :
    isLocalParseConfident
        (V2.parseTransactionLocal ("午餐180現金".toList) ["現金".toList]
          [⟨"餐飲".toList, some TxType.expense⟩] ("2024-03-05".toList))
        ("午餐180現金".toList) = true ∧
      (V2.parseTransactionAI ("午餐180現金".toList) ["現金".toList]
        [⟨"餐飲".toList, some TxType.expense⟩]
        ⟨false, true, true, "2024-03-05".toList⟩ RemoteOutcome.fails).2 = true := by
  decide!

/-! ## C4 -/

/-- C4 (confirmed): in both snapshots of the merge step, account mentions
recomputed from the original input text always win — the first mention is the
final source regardless of the remote and fallback choices, and for a merged
transfer the first mention differing from it is the final target. -/
theorem claim4_explicit_mentions_override (fallback parsed : ParsedInput)
    (input : Str) (accounts : List Str) (m : Str) (rest : List Str)
    (hm : findAccountMentionsInText input accounts = m :: rest) :
    ((V1.mergeRemote fallback parsed input accounts).accountName = some m ∧
      (V2.mergeRemote fallback parsed input accounts).accountName = some m) ∧
    ∀ t, (spreadMerge fallback parsed).type = some TxType.transfer →
      (m :: rest).find? (fun a => !(some a == some m)) = some t →
      (V1.mergeRemote fallback parsed input accounts).toAccountName = some t ∧
      (V2.mergeRemote fallback parsed input accounts).toAccountName = some t := by
  constructor
  · constructor
    · show jsNullish (findAccountMentionsInText input accounts).head? _ = some m
      rw [hm]
      rfl
    · show jsNullish (findAccountMentionsInText input accounts).head? _ = some m
      rw [hm]
      rfl
  · intro t htype hfind
    have hcond : ((spreadMerge fallback parsed).type == some TxType.transfer) = true := by
      rw [htype]; rfl
    constructor
    · show jsNullish (if ((spreadMerge fallback parsed).type == some TxType.transfer) = true
          then (findAccountMentionsInText input accounts).find?
            (fun a => !(some a == (findAccountMentionsInText input accounts).head?))
          else none) _ = some t
      rw [if_pos hcond, hm]
      simp only [List.head?_cons]
      rw [hfind]
      rfl
    · show jsNullish (if ((spreadMerge fallback parsed).type == some TxType.transfer) = true
          then (findAccountMentionsInText input accounts).find?
            (fun a => !(some a == (findAccountMentionsInText input accounts).head?))
          else none) _ = some t
      rw [if_pos hcond, hm]
      simp only [List.head?_cons]
      rw [hfind]
      rfl

/-- C4 (witness). -/
theorem claim4_witness :
    (V1.mergeRemote ⟨none, none, none, none, none, none, none⟩
        ⟨none, none, some TxType.transfer, none, none, none, none⟩
        ("ab cd".toList) ["ab".toList, "cd".toList]).toAccountName =
      some ("cd".toList) ∧
    (V2.mergeRemote ⟨none, none, none, none, none, none, none⟩
        ⟨none, none, some TxType.transfer, none, none, none, none⟩
        ("ab cd".toList) ["ab".toList, "cd".toList]).toAccountName =
      some ("cd".toList) :=
  (claim4_explicit_mentions_override ⟨none, none, none, none, none, none, none⟩
      ⟨none, none, some TxType.transfer, none, none, none, none⟩
      ("ab cd".toList) ["ab".toList, "cd".toList] ("ab".toList) ["cd".toList]
      (by decide!)).2 ("cd".toList) (by decide!) (by decide!)

/-! ## C5 -/

/-- C5 (counterexample): on `a` and `ab` the learned-preference similarity is
0.8 (Jaccard 1/2 plus the 0.3 containment bonus) while the account-matching
similarity is 1/2 — the two measures are not the same function. -/
theorem claim5_counterexample :
    scoreDescriptionSimilarity ("a".toList) ("ab".toList) ≠
      similarityByChars ("a".toList) ("ab".toList) := by
  decide!

/-- C5 (amended): the two similarity measures are distinct functions — union
versus max-size denominator, and a containment bonus only on the
learned-preference side — yet they do coincide on equal strings and whenever
either string is empty (they may also coincide at other inputs, e.g. on
character-disjoint strings where both score 0); this theorem proves the
coincidence on the equal/empty inputs. -/
theorem claim5_similarity_agrees_on_trivial_inputs (a b : Str)
    (h : a = b ∨ a = [] ∨ b = []) :
    scoreDescriptionSimilarity a b = similarityByChars a b := by
  rcases h with h | h | h
  · subst h
    by_cases ha : a = []
    · simp [scoreDescriptionSimilarity, similarityByChars, ha]
    · simp [scoreDescriptionSimilarity, similarityByChars, ha]
  · subst h
    simp [scoreDescriptionSimilarity, similarityByChars]
  · subst h
    simp [scoreDescriptionSimilarity, similarityByChars]

/-- C5 (witness). -/
theorem claim5_witness :
    scoreDescriptionSimilarity ("x".toList) ("x".toList) =
      similarityByChars ("x".toList) ("x".toList) :=
  claim5_similarity_agrees_on_trivial_inputs ("x".toList) ("x".toList) (Or.inl rfl)

/-! ## C6 -/

/-- C6 (counterexample): the input contains the relative keyword `yesterday`,
yet the resolver returns today unchanged (`2024-03-05`), not the −1-day shift
`2024-03-04`: the English relative keywords are not recognized. -/
theorem claim6_counterexample :
    containsSub (jsTrim ("yesterday lunch".toList)) ("yesterday".toList) = true ∧
      (V1.parseTransactionLocal ("yesterday lunch".toList) [] []
          ("2024-03-05".toList)).date = some ("2024-03-05".toList) ∧
      shiftBack ("2024-03-05".toList) 1 = "2024-03-04".toList := by
  decide!

/-- C6 (amended): the date resolver fires exactly one rule in priority order,
with 昨天/前天 as the only relative keywords: 昨天 shifts today one day back
(whatever else the text contains), else 前天 two days, else an explicit full
date is taken verbatim zero-padded, else a short date with the current year,
else today; and both parsers' date field is exactly this resolver's output. -/
theorem claim6_date_rule_priority (text today : Str) (ymd : Nat × Nat × Nat)
    (hv : parseIsoDate today = some ymd) :
    (containsSub text ("昨天".toList) = true →
      resolveDate text today =
        getLocalDateString (prevDay ymd).1 (prevDay ymd).2.1 (prevDay ymd).2.2) ∧
    (containsSub text ("昨天".toList) = false →
      containsSub text ("前天".toList) = true →
      resolveDate text today =
        getLocalDateString (prevDay (prevDay ymd)).1 (prevDay (prevDay ymd)).2.1
          (prevDay (prevDay ymd)).2.2) ∧
    (containsSub text ("昨天".toList) = false →
      containsSub text ("前天".toList) = false →
      ∀ ys ms ds, findFullDateCap text = some (ys, ms, ds) →
        resolveDate text today = ys ++ ('-' :: pad2 ms) ++ ('-' :: pad2 ds)) ∧
    (containsSub text ("昨天".toList) = false →
      containsSub text ("前天".toList) = false →
      findFullDateCap text = none →
      ∀ ms ds, findShortDateCap text = some (ms, ds) →
        resolveDate text today =
          (today.take 4) ++ ('-' :: pad2 ms) ++ ('-' :: pad2 ds)) ∧
    (containsSub text ("昨天".toList) = false →
      containsSub text ("前天".toList) = false →
      findFullDateCap text = none → findShortDateCap text = none →
      resolveDate text today = today) ∧
    (∀ input accounts categories,
      (V1.parseTransactionLocal input accounts categories today).date =
        some (resolveDate (jsTrim input) today) ∧
      (V2.parseTransactionLocal input accounts categories today).date =
        some (resolveDate (jsTrim input) today)) := by
  refine ⟨?_, ?_, ?_, ?_, ?_, ?_⟩
  · intro h1
    simp only [resolveDate, h1, if_true, shiftBack, hv]
    rfl
  · intro h1 h2
    simp only [resolveDate, h1, h2, Bool.false_eq_true, if_false, if_true,
      shiftBack, hv]
    rfl
  · intro h1 h2 ys ms ds hf
    simp only [resolveDate, h1, h2, Bool.false_eq_true, if_false, hf]
  · intro h1 h2 hf ms ds hs
    simp only [resolveDate, h1, h2, Bool.false_eq_true, if_false, hf, hs]
  · intro h1 h2 hf hs
    simp only [resolveDate, h1, h2, Bool.false_eq_true, if_false, hf, hs]
  · intro input accounts categories
    exact ⟨rfl, rfl⟩

/-- C6 (witness). -/
theorem claim6_witness :
    resolveDate ("昨天 午餐".toList) ("2024-03-05".toList) =
      getLocalDateString (prevDay (2024, 3, 5)).1 (prevDay (2024, 3, 5)).2.1
        (prevDay (2024, 3, 5)).2.2 :=
  (claim6_date_rule_priority ("昨天 午餐".toList) ("2024-03-05".toList)
    (2024, 3, 5) (by decide!)).1 (by decide!)

/-! ## C9 -/

/-- C9 (confirmed): for every non-empty input, when the remote call rejects,
returns malformed structured output, or the timeout settles first, both
snapshots' `parseTransactionAI` catch the failure and return the locally
computed fallback unchanged (the functions are total, so nothing propagates
past the public entry point). -/
theorem claim9_failures_return_fallback (input : Str) (accounts : List Str)
    (categories : List Category) (env : AiEnv) (outcome : RemoteOutcome)
    (hne : jsTrim input ≠ []) (hfail : outcome.isFailure = true) :
    (V1.parseTransactionAI input accounts categories env outcome).1 =
      some (V1.parseTransactionLocal input accounts categories env.today) ∧
    (V2.parseTransactionAI input accounts categories env outcome).1 =
      some (V2.parseTransactionLocal input accounts categories env.today) := by
  cases outcome with
  | returns p => cases hfail
  | fails =>
    constructor
    · unfold V1.parseTransactionAI
      rw [if_neg hne]
      split_ifs <;> simp [apply_ite]
    · unfold V2.parseTransactionAI
      rw [if_neg hne]
      split_ifs <;> simp [apply_ite]
  | timesOut =>
    constructor
    · unfold V1.parseTransactionAI
      rw [if_neg hne]
      split_ifs <;> simp [apply_ite]
    · unfold V2.parseTransactionAI
      rw [if_neg hne]
      split_ifs <;> simp [apply_ite]
  | malformed =>
    constructor
    · unfold V1.parseTransactionAI
      rw [if_neg hne]
      split_ifs <;> simp [apply_ite]
    · unfold V2.parseTransactionAI
      rw [if_neg hne]
      split_ifs <;> simp [apply_ite]

/-- C9 (witness). -/
theorem claim9_witness :
    (V1.parseTransactionAI ("x".toList) [] [] ⟨false, true, true, "2024-03-05".toList⟩
        RemoteOutcome.timesOut).1 =
      some (V1.parseTransactionLocal ("x".toList) [] [] ("2024-03-05".toList)) ∧
    (V2.parseTransactionAI ("x".toList) [] [] ⟨false, true, true, "2024-03-05".toList⟩
        RemoteOutcome.timesOut).1 =
      some (V2.parseTransactionLocal ("x".toList) [] [] ("2024-03-05".toList)) :=
  claim9_failures_return_fallback ("x".toList) [] []
    ⟨false, true, true, "2024-03-05".toList⟩ RemoteOutcome.timesOut
    (by decide!) rfl

/-! ## C10 -/

theorem jsTrim_eq_nil_iff (s : Str) : jsTrim s = [] ↔ s.all isJsSpace = true := by
  unfold jsTrim
  rw [List.reverse_eq_nil_iff, List.dropWhile_eq_nil_iff, List.all_eq_true]
  constructor
  · intro h x hx
    rcases List.mem_append.mp
        ((List.takeWhile_append_dropWhile (p := isJsSpace) (l := s)) ▸ hx) with
      hx1 | hx2
    · exact List.mem_takeWhile_imp hx1
    · exact h x (List.mem_reverse.mpr hx2)
  · intro h x hx
    exact h x ((List.dropWhile_suffix isJsSpace).subset (List.mem_reverse.mp hx))

/-- C10 (confirmed): both snapshots' `parseTransactionAI` return `null`
exactly when the input is empty or whitespace-only; any input with a
non-whitespace character yields a `ParsedInput`, whatever the environment and
the remote outcome. -/
theorem claim10_null_iff_blank (input : Str) (accounts : List Str)
    (categories : List Category) (env : AiEnv) (outcome : RemoteOutcome) :
    ((V1.parseTransactionAI input accounts categories env outcome).1 = none ↔
      input.all isJsSpace = true) ∧
    ((V2.parseTransactionAI input accounts categories env outcome).1 = none ↔
      input.all isJsSpace = true) := by
  by_cases hb : jsTrim input = []
  · have hall := (jsTrim_eq_nil_iff input).mp hb
    constructor
    · unfold V1.parseTransactionAI
      rw [if_pos hb]
      simp [hall]
    · unfold V2.parseTransactionAI
      rw [if_pos hb]
      simp [hall]
  · have hfa : input.all isJsSpace = false := by
      cases h : input.all isJsSpace
      · rfl
      · exact absurd ((jsTrim_eq_nil_iff input).mpr h) hb
    constructor
    · unfold V1.parseTransactionAI
      rw [if_neg hb]
      cases outcome <;> split_ifs <;> simp [hfa, apply_ite] <;> split <;> simp
    · unfold V2.parseTransactionAI
      rw [if_neg hb]
      cases outcome <;> split_ifs <;> simp [hfa, apply_ite] <;> split <;> simp

/-! ## C8 -/

theorem mem_scanReplaceF (m : Str → Option Nat) :
    ∀ (fuel : Nat) (s : Str) (c : Char), c ∈ scanReplaceF m fuel s →
      c = ' ' ∨ c ∈ s := by
  intro fuel
  induction fuel with
  | zero =>
    intro s c hc
    cases s with
    | nil => cases hc
    | cons a t => exact Or.inr hc
  | succ fuel ih =>
    intro s c hc
    cases s with
    | nil => cases hc
    | cons a rest =>
      unfold scanReplaceF at hc
      cases hm : m (a :: rest) with
      | some k =>
        rw [hm] at hc
        rcases List.mem_cons.mp hc with h | h
        · exact Or.inl h
        · rcases ih _ _ h with h2 | h2
          · exact Or.inl h2
          · exact Or.inr (List.mem_cons_of_mem a (List.drop_subset _ rest h2))
      | none =>
        rw [hm] at hc
        rcases List.mem_cons.mp hc with h | h
        · exact Or.inr (h ▸ List.mem_cons_self a rest)
        · rcases ih _ _ h with h2 | h2
          · exact Or.inl h2
          · exact Or.inr (List.mem_cons_of_mem a h2)

theorem noDigit_scanReplace (m : Str → Option Nat) (s : Str)
    (h : s.all (fun c => !isDigitC c) = true) :
    (scanReplace m s).all (fun c => !isDigitC c) = true := by
  rw [List.all_eq_true] at h ⊢
  intro c hc
  rcases mem_scanReplaceF m s.length s c hc with h2 | h2
  · subst h2; rfl
  · exact h c h2

theorem matchNumeral_isSome_of_digit (c : Char) (rest : Str)
    (hc : isDigitC c = true) : (matchNumeral (c :: rest)).isSome = true := by
  simp only [matchNumeral, hc, if_true]
  split
  · simp [apply_ite Option.isSome]
  · simp

theorem noDigit_scanReplaceF_matchNumeral :
    ∀ (fuel : Nat) (s : Str), s.length ≤ fuel →
      (scanReplaceF matchNumeral fuel s).all (fun c => !isDigitC c) = true := by
  intro fuel
  induction fuel with
  | zero =>
    intro s hs
    rw [Nat.le_zero, List.length_eq_zero] at hs
    subst hs
    rfl
  | succ fuel ih =>
    intro s hs
    cases s with
    | nil => rfl
    | cons a rest =>
      unfold scanReplaceF
      cases hm : matchNumeral (a :: rest) with
      | some k =>
        simp only [List.all_cons, Bool.and_eq_true]
        refine ⟨rfl, ih _ ?_⟩
        calc (rest.drop (k - 1)).length ≤ rest.length :=
              (List.drop_sublist _ rest).length_le
          _ ≤ fuel := by simpa using Nat.le_of_succ_le_succ hs
      | none =>
        have ha : isDigitC a = false := by
          cases hd : isDigitC a
          · rfl
          · have := matchNumeral_isSome_of_digit a rest hd
            rw [hm] at this
            cases this
        simp only [List.all_cons, Bool.and_eq_true, ha]
        exact ⟨rfl, ih rest (by simpa using Nat.le_of_succ_le_succ hs)⟩

theorem noDigit_scanReplace_matchNumeral (s : Str) :
    (scanReplace matchNumeral s).all (fun c => !isDigitC c) = true :=
  noDigit_scanReplaceF_matchNumeral s.length s (Nat.le_refl _)

theorem noDigit_foldl_alias (l : List Str) :
    ∀ r : Str, r.all (fun c => !isDigitC c) = true →
      (l.foldl (fun acc2 a => scanReplace (matchLitCI a) acc2) r).all
        (fun c => !isDigitC c) = true := by
  induction l with
  | nil => intro r h; exact h
  | cons x t ih => intro r h; exact ih _ (noDigit_scanReplace _ r h)

theorem noDigit_stripOneAccount (r account : Str)
    (h : r.all (fun c => !isDigitC c) = true) :
    (stripOneAccount r account).all (fun c => !isDigitC c) = true := by
  unfold stripOneAccount
  split
  · exact h
  · refine noDigit_foldl_alias _ _ ?_
    split
    · exact h
    · exact noDigit_scanReplace _ r h

theorem noDigit_foldl_strip (accounts : List Str) :
    ∀ r : Str, r.all (fun c => !isDigitC c) = true →
      (accounts.foldl stripOneAccount r).all (fun c => !isDigitC c) = true := by
  induction accounts with
  | nil => intro r h; exact h
  | cons x t ih => intro r h; exact ih _ (noDigit_stripOneAccount r x h)

theorem noDigit_jsTrim (s : Str) (h : s.all (fun c => !isDigitC c) = true) :
    (jsTrim s).all (fun c => !isDigitC c) = true := by
  rw [List.all_eq_true] at h ⊢
  intro c hc
  refine h c ?_
  unfold jsTrim at hc
  have h1 := List.mem_reverse.mp hc
  have h2 := (List.dropWhile_suffix isJsSpace).subset h1
  have h3 := List.mem_reverse.mp h2
  exact (List.dropWhile_suffix isJsSpace).subset h3

theorem noDigit_cleanDescription (text : Str) (accounts : List Str) :
    (cleanDescription text accounts).all (fun c => !isDigitC c) = true := by
  unfold cleanDescription
  refine noDigit_jsTrim _ (noDigit_scanReplace _ _ (noDigit_scanReplace _ _
    (noDigit_foldl_strip accounts _ (noDigit_scanReplace _ _
      (noDigit_scanReplace_matchNumeral _)))))

/-- C8 (counterexample): on input `180` the cleanup empties the text, so the
raw input — a bare decimal numeral — is surfaced as the description. -/
theorem claim8_counterexample :
    (V1.parseTransactionLocal ("180".toList) [] [] ("2024-03-05".toList)).description =
        some ("180".toList) ∧
      ("180".toList).any isDigitC = true := by
  decide!

/-- C8 (amended): the description both parsers return is the trimmed input
with dates, numerals, relative-date words, account mention patterns and
account keywords replaced by spaces — a text that contains no digit, hence no
decimal numeral and no date substring — except when that cleanup yields the
empty string, in which case the raw trimmed input is used verbatim. -/
theorem claim8_description_stripped (input : Str) (accounts : List Str)
    (categories : List Category) (today : Str) :
    (cleanDescription (jsTrim input) accounts).all (fun c => !isDigitC c) = true ∧
    (cleanDescription (jsTrim input) accounts ≠ [] →
      (V1.parseTransactionLocal input accounts categories today).description =
        some (cleanDescription (jsTrim input) accounts) ∧
      (V2.parseTransactionLocal input accounts categories today).description =
        some (cleanDescription (jsTrim input) accounts)) ∧
    (cleanDescription (jsTrim input) accounts = [] →
      (V1.parseTransactionLocal input accounts categories today).description =
        some (jsTrim input) ∧
      (V2.parseTransactionLocal input accounts categories today).description =
        some (jsTrim input)) := by
  refine ⟨noDigit_cleanDescription _ accounts, ?_, ?_⟩
  · intro hne
    constructor
    · show some (jsOrS (cleanDescription (jsTrim input) accounts) (jsTrim input)) = _
      rw [jsOrS, if_neg hne]
    · show some (jsOrS (cleanDescription (jsTrim input) accounts) (jsTrim input)) = _
      rw [jsOrS, if_neg hne]
  · intro hnil
    constructor
    · show some (jsOrS (cleanDescription (jsTrim input) accounts) (jsTrim input)) = _
      rw [jsOrS, if_pos hnil]
    · show some (jsOrS (cleanDescription (jsTrim input) accounts) (jsTrim input)) = _
      rw [jsOrS, if_pos hnil]

/-- C8 (witness). -/
theorem claim8_witness :
    (V1.parseTransactionLocal ("lunch 180".toList) [] [] ("2024-03-05".toList)).description =
        some (cleanDescription (jsTrim ("lunch 180".toList)) []) ∧
      (V2.parseTransactionLocal ("lunch 180".toList) [] [] ("2024-03-05".toList)).description =
        some (cleanDescription (jsTrim ("lunch 180".toList)) []) :=
  (claim8_description_stripped ("lunch 180".toList) [] [] ("2024-03-05".toList)).2.1
    (by decide!)

/-! ## C7 -/

theorem scanBF_fuel (m : Option Char → Str → Option Nat) :
    ∀ (n : Nat) (s : Str), s.length ≤ n → ∀ (f : Nat) (prev : Option Char),
      s.length ≤ f → scanReplaceBF m f prev s = scanReplaceB m prev s := by
  intro n
  induction n with
  | zero =>
    intro s hs f prev hf
    rw [Nat.le_zero, List.length_eq_zero] at hs
    subst hs
    cases f <;> rfl
  | succ n ih =>
    intro s hs f prev hf
    cases s with
    | nil => cases f <;> rfl
    | cons c rest =>
      cases f with
      | zero => simp at hf
      | succ f =>
        have hr : rest.length ≤ n := by simpa using Nat.le_of_succ_le_succ hs
        have hrf : rest.length ≤ f := by simpa using Nat.le_of_succ_le_succ hf
        show scanReplaceBF m (f + 1) prev (c :: rest) =
          scanReplaceBF m (rest.length + 1) prev (c :: rest)
        cases hm : m prev (c :: rest) with
        | some k =>
          simp only [scanReplaceBF, hm]
          rw [ih _ (Nat.le_trans (List.drop_sublist _ rest).length_le hr) f _
              (Nat.le_trans (List.drop_sublist _ rest).length_le hrf),
            ih _ (Nat.le_trans (List.drop_sublist _ rest).length_le hr) rest.length _
              (List.drop_sublist _ rest).length_le]
        | none =>
          simp only [scanReplaceBF, hm]
          rw [ih _ hr f _ hrf, ih _ hr rest.length _ (Nat.le_refl _)]

theorem scanB_step_none (m : Option Char → Str → Option Nat) (p : Option Char)
    (c : Char) (T : Str) (h : m p (c :: T) = none) :
    scanReplaceB m p (c :: T) = c :: scanReplaceB m (some c) T := by
  show scanReplaceBF m ((c :: T).length) p (c :: T) = _
  rw [List.length_cons]
  simp only [scanReplaceBF, h]
  rfl

theorem scanB_step_some (m : Option Char → Str → Option Nat) (p : Option Char)
    (c : Char) (T : Str) (k : Nat) (h : m p (c :: T) = some k) :
    scanReplaceB m p (c :: T) =
      ' ' :: scanReplaceB m (((c :: T).take k).getLast?) (T.drop (k - 1)) := by
  show scanReplaceBF m ((c :: T).length) p (c :: T) = _
  rw [List.length_cons]
  simp only [scanReplaceBF, h]
  rw [scanBF_fuel m T.length _ (List.drop_sublist _ T).length_le T.length _
    (List.drop_sublist _ T).length_le]

theorem prevAfter_none (pre : Str) : prevAfter none pre = pre.getLast? := by
  cases h : pre.getLast? <;> simp [prevAfter, h]

theorem prevAfter_cons (prev : Option Char) (c : Char) (pre : Str) :
    prevAfter prev (c :: pre) = prevAfter (some c) pre := by
  cases pre with
  | nil => simp [prevAfter]
  | cons d t =>
    simp only [prevAfter, List.getLast?_cons_cons]
    cases hx : (d :: t).getLast? with
    | some e => rfl
    | none =>
      exfalso
      have hne : (d :: t) ≠ ([] : Str) := by simp
      first
      | exact hne (List.getLast?_eq_none_iff.mp hx)
      | exact hne (List.getLast?_eq_none.mp hx)

theorem scanB_skip (m : Option Char → Str → Option Nat)
    (hm : ∀ (prev : Option Char) (c : Char) (rest : Str),
      isDigitC c = false → m prev (c :: rest) = none) :
    ∀ (pre rest : Str) (prev : Option Char),
      pre.all (fun c => !isDigitC c) = true →
      scanReplaceB m prev (pre ++ rest) =
        pre ++ scanReplaceB m (prevAfter prev pre) rest := by
  intro pre
  induction pre with
  | nil => intro rest prev _; simp [prevAfter]
  | cons c pre ih =>
    intro rest prev h
    rw [List.all_cons, Bool.and_eq_true] at h
    obtain ⟨hc, hp⟩ := h
    have hc' : isDigitC c = false := by
      cases hd : isDigitC c
      · rfl
      · rw [hd] at hc; cases hc
    rw [List.cons_append, scanB_step_none m prev c (pre ++ rest) (hm _ _ _ hc'),
      ih rest (some c) hp, prevAfter_cons]
    rfl

theorem scanB_stop (m : Option Char → Str → Option Nat)
    (hm : ∀ (prev : Option Char) (c : Char) (rest : Str),
      isDigitC c = false → m prev (c :: rest) = none)
    (s : Str) (prev : Option Char) (h : s.all (fun c => !isDigitC c) = true) :
    scanReplaceB m prev s = s := by
  have h2 := scanB_skip m hm s [] prev h
  rw [List.append_nil] at h2
  rw [h2]
  rw [show scanReplaceB m (prevAfter prev s) [] = [] from rfl]
  exact List.append_nil s

theorem matchFullDateB_nondigit (prev : Option Char) (c : Char) (rest : Str)
    (hc : isDigitC c = false) : matchFullDateB prev (c :: rest) = none := by
  cases hb : boundaryOK prev <;> simp [matchFullDateB, hb, takeDigits, hc]

theorem matchShortDateB_nondigit (prev : Option Char) (c : Char) (rest : Str)
    (hc : isDigitC c = false) : matchShortDateB prev (c :: rest) = none := by
  cases hb : boundaryOK prev <;> simp [matchShortDateB, matchMDB, hb, takeDigits, hc]

theorem takeDigits4_stops (suf : Str)
    (hs : suf.all (fun c => !isDigitC c) = true) :
    takeDigits 4 ('1' :: '8' :: '0' :: suf) = none := by
  cases suf with
  | nil => rfl
  | cons a t =>
    rw [List.all_cons, Bool.and_eq_true] at hs
    have ha : isDigitC a = false := by
      cases hd : isDigitC a
      · rfl
      · rw [hd] at hs; rcases hs with ⟨h1, _⟩; cases h1
    simp [takeDigits, ha]

theorem matchFullDateB_at_date (prev : Option Char) (rest : Str)
    (hb : boundaryOK prev = true) :
    matchFullDateB prev
      ('2' :: '0' :: '2' :: '4' :: '/' :: '3' :: '/' :: '5' :: ' ' :: rest) =
      some 8 := by
  simp [matchFullDateB, hb, takeDigits, matchMDB, matchDayB, endBoundary,
    isSepDate, isWordC, isDigitC]

theorem maskFull_after_date (suf : Str)
    (hs : suf.all (fun c => !isDigitC c) = true) :
    scanReplaceB matchFullDateB (some '5') (' ' :: '1' :: '8' :: '0' :: suf) =
      ' ' :: '1' :: '8' :: '0' :: suf := by
  rw [scanB_step_none _ _ _ _ (by rfl)]
  rw [scanB_step_none _ _ _ _ (by simp [matchFullDateB, takeDigits4_stops suf hs])]
  rw [scanB_step_none _ _ _ _ (by rfl)]
  rw [scanB_step_none _ _ _ _ (by rfl)]
  rw [scanB_stop _ matchFullDateB_nondigit suf _ hs]

theorem maskShort_preserved (prev : Option Char) (suf : Str)
    (hs : suf.all (fun c => !isDigitC c) = true) :
    scanReplaceB matchShortDateB prev (' ' :: ' ' :: '1' :: '8' :: '0' :: suf) =
      ' ' :: ' ' :: '1' :: '8' :: '0' :: suf := by
  rw [scanB_step_none _ _ _ _ (matchShortDateB_nondigit prev ' ' _ (by decide))]
  rw [scanB_step_none _ _ _ _ (matchShortDateB_nondigit _ ' ' _ (by decide))]
  rw [scanB_step_none _ _ _ _ (by rfl)]
  rw [scanB_step_none _ _ _ _ (by rfl)]
  rw [scanB_step_none _ _ _ _ (by rfl)]
  rw [scanB_stop _ matchShortDateB_nondigit suf _ hs]

theorem firstNumeralQ_append_nondigit (pre : Str)
    (h : pre.all (fun c => !isDigitC c) = true) (rest : Str) :
    firstNumeralQ (pre ++ rest) = firstNumeralQ rest := by
  induction pre with
  | nil => rfl
  | cons c t ih =>
    rw [List.all_cons, Bool.and_eq_true] at h
    obtain ⟨hc, hp⟩ := h
    have hc' : isDigitC c = false := by
      cases hd : isDigitC c
      · rfl
      · rw [hd] at hc; cases hc
    rw [List.cons_append]
    simp only [firstNumeralQ, hc', Bool.false_eq_true, if_false]
    exact ih hp

theorem firstNumeralQ_none (s : Str)
    (h : s.all (fun c => !isDigitC c) = true) : firstNumeralQ s = none := by
  have := firstNumeralQ_append_nondigit s h []
  simpa using this

theorem takeWhile_digits_nil (l : Str)
    (h : l.all (fun c => !isDigitC c) = true) : l.takeWhile isDigitC = [] := by
  cases l with
  | nil => rfl
  | cons a t =>
    rw [List.all_cons, Bool.and_eq_true] at h
    have ha : isDigitC a = false := by
      cases hd : isDigitC a
      · rfl
      · rw [hd] at h; rcases h with ⟨h1, _⟩; cases h1
    simp [List.takeWhile_cons, ha]

theorem firstNumeralQ_value (suf : Str)
    (hs : suf.all (fun c => !isDigitC c) = true) :
    firstNumeralQ ('1' :: '8' :: '0' :: suf) = some 180 := by
  cases suf with
  | nil => decide!
  | cons a t =>
    rw [List.all_cons, Bool.and_eq_true] at hs
    obtain ⟨ha', ht⟩ := hs
    have ha : isDigitC a = false := by
      cases hd : isDigitC a
      · rfl
      · rw [hd] at ha'; cases ha'
    have h180 : List.takeWhile isDigitC ('1' :: '8' :: '0' :: a :: t) =
        ['1', '8', '0'] := by
      simp [List.takeWhile_cons, ha]
      decide
    have hval : ((natOfDigits ['1', '8', '0'] : Nat) : ℚ) = 180 := by
      norm_num [show natOfDigits ['1', '8', '0'] = 180 from by decide]
    unfold firstNumeralQ
    rw [if_pos (show isDigitC '1' = true from rfl)]
    simp only [h180]
    rw [show List.drop (['1', '8', '0'] : Str).length ('1' :: '8' :: '0' :: a :: t) =
      a :: t from rfl]
    by_cases hdot : a = '.'
    · subst hdot
      simp only [if_pos rfl, takeWhile_digits_nil t ht, hval]
      rfl
    · simp only [if_neg hdot, hval]

/-- C7 (confirmed): amount extraction first masks date-like substrings and
then takes the first remaining decimal numeral. For any input built of a
digit-free prefix (ending at a word boundary), the date `2024/3/5`, and the
amount `180` followed by digit-free text, it returns 180 — not 2024, 3 or 5;
and whenever no numeral survives the masking it returns absent. -/
theorem claim7_amount_extraction :
    (∀ pre suf : Str,
      pre.all (fun c => !isDigitC c) = true →
      suf.all (fun c => !isDigitC c) = true →
      boundaryOK pre.getLast? = true →
      amountOfText (pre ++ ("2024/3/5 180".toList ++ suf)) = some 180) ∧
    (∀ text : Str,
      (maskDates text).all (fun c => !isDigitC c) = true →
      amountOfText text = none) := by
  constructor
  · intro pre suf hpre hsuf hb
    unfold amountOfText maskDates
    rw [scanB_skip matchFullDateB matchFullDateB_nondigit pre _ none hpre,
      prevAfter_none]
    rw [show ("2024/3/5 180".toList ++ suf) =
      '2' :: '0' :: '2' :: '4' :: '/' :: '3' :: '/' :: '5' ::
        (' ' :: '1' :: '8' :: '0' :: suf) from rfl]
    rw [scanB_step_some _ _ _ _ 8 (matchFullDateB_at_date _ _ hb)]
    rw [show ((('2' : Char) :: '0' :: '2' :: '4' :: '/' :: '3' :: '/' :: '5' ::
        (' ' :: '1' :: '8' :: '0' :: suf)).take 8).getLast? = some '5' from rfl]
    rw [show ((('0' : Char) :: '2' :: '4' :: '/' :: '3' :: '/' :: '5' ::
        (' ' :: '1' :: '8' :: '0' :: suf)).drop 7) =
      (' ' :: '1' :: '8' :: '0' :: suf) from rfl]
    rw [maskFull_after_date suf hsuf]
    rw [show (pre ++ ' ' :: (' ' :: '1' :: '8' :: '0' :: suf) : Str) =
      pre ++ (' ' :: ' ' :: '1' :: '8' :: '0' :: suf) from rfl]
    rw [scanB_skip matchShortDateB matchShortDateB_nondigit pre _ none hpre]
    rw [maskShort_preserved _ suf hsuf]
    rw [firstNumeralQ_append_nondigit pre hpre]
    rw [show (' ' :: ' ' :: '1' :: '8' :: '0' :: suf : Str) =
      [' ', ' '] ++ ('1' :: '8' :: '0' :: suf) from rfl]
    rw [firstNumeralQ_append_nondigit [' ', ' '] (by decide)]
    exact firstNumeralQ_value suf hsuf
  · intro text h
    unfold amountOfText
    exact firstNumeralQ_none _ h

/-- C7 (witness). -/
theorem claim7_witness :
    amountOfText ([] ++ ("2024/3/5 180".toList ++ [])) = some 180 ∧
    amountOfText ("午餐 2024/3/5 没钱".toList) = none :=
  ⟨claim7_amount_extraction.1 [] [] rfl rfl rfl,
    claim7_amount_extraction.2 ("午餐 2024/3/5 没钱".toList) (by decide!)⟩

theorem mem_pushUnique {x s : Str} {l : List Str} (h : x ∈ pushUnique l s) :
    x ∈ l ∨ x = s := by
  unfold pushUnique at h
  split at h
  · exact Or.inl h
  · rcases List.mem_append.mp h with h1 | h1
    · exact Or.inl h1
    · exact Or.inr (List.mem_singleton.mp h1)

theorem mem_foldl_pushUnique (l : List Str) :
    ∀ (acc : List Str) (x : Str), x ∈ l.foldl pushUnique acc → x ∈ acc ∨ x ∈ l := by
  induction l with
  | nil => intro acc x h; exact Or.inl h
  | cons a t ih =>
    intro acc x h
    rcases ih _ x h with h1 | h1
    · rcases mem_pushUnique h1 with h2 | h2
      · exact Or.inl h2
      · exact Or.inr (h2 ▸ List.mem_cons_self a t)
    · exact Or.inr (List.mem_cons_of_mem a h1)

theorem mem_insertDescQ {x y : Str × ℚ} {l : List (Str × ℚ)}
    (h : x ∈ insertDescQ y l) : x = y ∨ x ∈ l := by
  induction l with
  | nil => simpa [insertDescQ] using h
  | cons z t ih =>
    unfold insertDescQ at h
    split at h
    · rcases List.mem_cons.mp h with h1 | h1
      · exact Or.inl h1
      · exact Or.inr h1
    · rcases List.mem_cons.mp h with h1 | h1
      · exact Or.inr (h1 ▸ List.mem_cons_self z t)
      · rcases ih h1 with h2 | h2
        · exact Or.inl h2
        · exact Or.inr (List.mem_cons_of_mem z h2)

theorem mem_sortDescQ {x : Str × ℚ} :
    ∀ l : List (Str × ℚ), x ∈ sortDescQ l → x ∈ l := by
  intro l
  induction l with
  | nil => intro h; simpa [sortDescQ] using h
  | cons a t ih =>
    intro h
    unfold sortDescQ at h
    rw [List.foldr_cons] at h
    rcases mem_insertDescQ h with h1 | h1
    · exact h1 ▸ List.mem_cons_self a t
    · exact List.mem_cons_of_mem a (ih h1)

theorem scoreOfAccount_nil (nt : Str) : scoreOfAccount nt [] = 0 := by
  unfold scoreOfAccount
  rw [show accountAliases [] = [] from by decide]
  simp only [List.foldl_nil]
  unfold getAccountHintBoost
  rw [show normalizeLoose [] = [] from rfl,
    show hasAnyToken ([] : Str) CASH_HINT_KEYWORDS = false from by decide,
    show hasAnyToken ([] : Str) BANK_HINT_KEYWORDS = false from by decide]
  norm_num [qmax]

theorem nil_not_mem_mentions (text : Str) (accounts : List Str) :
    ([] : Str) ∉ findAccountMentionsInText text accounts := by
  intro h
  unfold findAccountMentionsInText dedupKeepFirst at h
  rcases mem_foldl_pushUnique _ [] _ h with h1 | h1
  · cases h1
  · obtain ⟨q, hq, hq1⟩ := List.mem_map.mp h1
    have hq2 := mem_sortDescQ _ hq
    obtain ⟨hmem, hsc⟩ := List.mem_filter.mp hq2
    obtain ⟨name, _, heq⟩ := List.mem_map.mp hmem
    rw [← heq] at hq1 hsc
    simp only at hq1 hsc
    subst hq1
    rw [scoreOfAccount_nil] at hsc
    norm_num at hsc

theorem jsOrStr_falsy {a b : Option Str} (h : a = none ∨ a = some []) :
    jsOrStr a b = b := by
  rcases h with h | h <;> subst h <;> rfl

theorem jsOrStr_self (m : Str) : jsOrStr (some m) (some m) = some m := by
  unfold jsOrStr
  split
  · next s heq =>
    rw [Option.some.inj heq]
    split <;> rfl
  · rfl

theorem V2.sourceOf_isSome {text : Str} {accounts : List Str} {m : Str}
    (hm : (findAccountMentionsInText text accounts).head? = some m) :
    ∃ s, V2.sourceOf text accounts = some s := by
  unfold V2.sourceOf findBestAccountMatch
  rw [hm, jsOrStr_self]
  cases hd : (V2.extractTransferAccounts text accounts).1 with
  | none => exact ⟨m, rfl⟩
  | some f =>
    by_cases hf : f = []
    · subst hf
      exact ⟨m, rfl⟩
    · refine ⟨f, ?_⟩
      simp [jsOrStr, hf]

/-- C1 (amended): in the `geminiService.ts` parser, whenever the locally
parsed result has type transfer and a target account is resolved, the source
is resolved too and differs from the target; in the `part_000` parser the same
exclusivity holds whenever the directional split did not itself supply the
target (it is only the last-connector directional resolution — the source of
the counterexample — that can return the same account on both sides). -/
theorem claim1_transfer_exclusivity :
    (∀ (input : Str) (accounts : List Str) (categories : List Category)
      (today t : Str),
      (V1.parseTransactionLocal input accounts categories today).type =
        some TxType.transfer →
      (V1.parseTransactionLocal input accounts categories today).toAccountName =
        some t →
      ∃ s, (V1.parseTransactionLocal input accounts categories today).accountName =
        some s ∧ s ≠ t) ∧
    (∀ (input : Str) (accounts : List Str) (categories : List Category)
      (today t : Str),
      (V2.parseTransactionLocal input accounts categories today).type =
        some TxType.transfer →
      ((V2.extractTransferAccounts (jsTrim input) accounts).2 = none ∨
        (V2.extractTransferAccounts (jsTrim input) accounts).2 = some []) →
      (V2.parseTransactionLocal input accounts categories today).toAccountName =
        some t →
      ∃ s, (V2.parseTransactionLocal input accounts categories today).accountName =
        some s ∧ s ≠ t) := by
  constructor
  · intro input accounts categories today t _htype hto
    have hto' : V1.toAccountOf (jsTrim input) accounts = some t := hto
    unfold V1.toAccountOf at hto'
    by_cases htr : V1.typeOf (jsTrim input) = TxType.transfer
    · rw [if_pos htr] at hto'
      have hpred := List.find?_some hto'
      have hmem := List.mem_of_find?_eq_some hto'
      obtain ⟨m, rest, hm⟩ : ∃ m rest,
          findAccountMentionsInText (jsTrim input) accounts = m :: rest := by
        cases hx : findAccountMentionsInText (jsTrim input) accounts with
        | nil => rw [hx] at hmem; cases hmem
        | cons a l => exact ⟨a, l, rfl⟩
      have hsrc := V1.sourceOf_eq_head hm
      refine ⟨m, hsrc, ?_⟩
      rw [hsrc] at hpred
      simp at hpred
      exact fun h => hpred h.symm
    · rw [if_neg htr] at hto'
      cases hto'
  · intro input accounts categories today t htype hdir hto
    have htr : V2.typeOf (jsTrim input) accounts = TxType.transfer :=
      Option.some.inj htype
    have hto' : V2.toAccountOf (jsTrim input) accounts = some t := hto
    unfold V2.toAccountOf at hto'
    rw [if_pos htr, jsOrStr_falsy hdir] at hto'
    cases hfbt : (findAccountMentionsInText (jsTrim input) accounts).find?
        (fun a => !(some a == V2.sourceOf (jsTrim input) accounts)) with
    | some x =>
      rw [hfbt] at hto'
      by_cases hx : x = []
      · subst hx
        exact absurd (List.mem_of_find?_eq_some hfbt) (nil_not_mem_mentions _ _)
      · rw [show jsOrStr (some x)
            (if containsSub (jsTrim input) ("現金".toList) = true then
              findBestAccountMatch ("現金".toList) accounts
            else none) = some x from by simp [jsOrStr, hx]] at hto'
        have hxt : x = t := Option.some.inj hto'
        have hpred := List.find?_some hfbt
        have hmem := List.mem_of_find?_eq_some hfbt
        obtain ⟨m, hm⟩ : ∃ m,
            (findAccountMentionsInText (jsTrim input) accounts).head? = some m := by
          cases hzz : findAccountMentionsInText (jsTrim input) accounts with
          | nil => rw [hzz] at hmem; cases hmem
          | cons a l => exact ⟨a, by simp [hzz]⟩
        obtain ⟨s, hs⟩ := V2.sourceOf_isSome hm
        refine ⟨s, hs, ?_⟩
        intro hst
        rw [hs] at hpred
        simp at hpred
        exact hpred (by rw [hst, hxt])
    | none =>
      exfalso
      have hhasTwo : V2.hasTwoAccountsOf (jsTrim input) accounts = false := by
        unfold V2.hasTwoAccountsOf
        rcases hdir with h | h <;> simp [h, truthyStr]
      unfold V2.typeOf at htr
      rw [hhasTwo] at htr
      simp only [Bool.false_eq_true, if_false] at htr
      by_cases hb2 : (V2.transferByVerbOf (jsTrim input) &&
          decide (2 ≤ (findAccountMentionsInText (jsTrim input) accounts).length) &&
          !V2.incomeByKeywordOf (jsTrim input)) = true
      · simp only [Bool.and_eq_true, decide_eq_true_eq] at hb2
        obtain ⟨⟨_, hlen⟩, _⟩ := hb2
        obtain ⟨a, b, rest, hm⟩ : ∃ a b rest,
            findAccountMentionsInText (jsTrim input) accounts = a :: b :: rest := by
          match hx : findAccountMentionsInText (jsTrim input) accounts with
          | [] => rw [hx] at hlen; simp at hlen
          | [x] => rw [hx] at hlen; simp at hlen
          | x :: y :: r => exact ⟨x, y, r, rfl⟩
        have hnd := mentions_nodup (jsTrim input) accounts
        rw [hm] at hnd
        have hab : a ≠ b := by
          intro hcon
          rw [hcon] at hnd
          simp at hnd
        have hall := List.find?_eq_none.mp hfbt
        have ha := hall a (by rw [hm]; exact List.mem_cons_self a (b :: rest))
        have hb := hall b (by rw [hm]; exact List.mem_cons_of_mem a (List.mem_cons_self b rest))
        simp at ha hb
        exact hab (Option.some.inj (ha.trans hb.symm))
      · rw [if_neg hb2] at htr
        split at htr <;> cases htr

/-- C1 (witness). -/
theorem claim1_witness :
    (∃ s, (V1.parseTransactionLocal ("轉帳 ab cd".toList) ["ab".toList, "cd".toList]
      [] ("2024-03-05".toList)).accountName = some s ∧ s ≠ "cd".toList) ∧
    (∃ s, (V2.parseTransactionLocal ("轉現金".toList)
      ["cash one".toList, "cash two".toList] [] ("2024-03-05".toList)).accountName =
      some s ∧ s ≠ "cash two".toList) :=
  ⟨claim1_transfer_exclusivity.1 ("轉帳 ab cd".toList) ["ab".toList, "cd".toList]
      [] ("2024-03-05".toList) ("cd".toList) (by decide!) (by decide!),
    claim1_transfer_exclusivity.2 ("轉現金".toList)
      ["cash one".toList, "cash two".toList] [] ("2024-03-05".toList)
      ("cash two".toList) (by decide!) (Or.inl (by decide!)) (by decide!)⟩

/-- C3 (amended): in `geminiService.ts`, with a remote service configured and
local-only not requested, a resolved (confident) fallback short-circuits: no
remote call is issued and the fallback is returned as-is, whatever the remote
would have done. In the `part_000` snapshot only the transfer-specific bypass
has that effect: a fallback transfer with two distinct resolved accounts is
returned without issuing the remote call ­— the general confidence gate is
absent there. -/
theorem claim3_confident_skips_remote :
    (∀ (input : Str) (accounts : List Str) (categories : List Category)
      (env : AiEnv) (outcome : RemoteOutcome),
      env.apiKeyPresent = true → env.localOnly = false →
      isLocalParseConfident
        (V1.parseTransactionLocal input accounts categories env.today) input = true →
      V1.parseTransactionAI input accounts categories env outcome =
        (some (V1.parseTransactionLocal input accounts categories env.today), false)) ∧
    (∀ (input : Str) (accounts : List Str) (categories : List Category)
      (env : AiEnv) (outcome : RemoteOutcome),
      env.apiKeyPresent = true → env.localOnly = false → jsTrim input ≠ [] →
      (V2.parseTransactionLocal input accounts categories env.today).type =
        some TxType.transfer →
      truthyStr (V2.parseTransactionLocal input accounts categories env.today).accountName
        = true →
      truthyStr (V2.parseTransactionLocal input accounts categories env.today).toAccountName
        = true →
      (V2.parseTransactionLocal input accounts categories env.today).accountName ≠
        (V2.parseTransactionLocal input accounts categories env.today).toAccountName →
      V2.parseTransactionAI input accounts categories env outcome =
        (some (V2.parseTransactionLocal input accounts categories env.today), false)) := by
  constructor
  · intro input accounts categories env outcome hkey hlocal hconf
    have hne := confident_trim_ne_nil input accounts categories env.today hconf
    unfold V1.parseTransactionAI
    rw [if_neg hne]
    simp only [hkey, hlocal, Bool.not_true, Bool.or_false, Bool.false_eq_true,
      if_false, hconf, if_true]
  · intro input accounts categories env outcome hkey hlocal hne htr hacc hto hdiff
    unfold V2.parseTransactionAI
    rw [if_neg hne]
    have hbne : ((V2.parseTransactionLocal input accounts categories env.today).accountName ==
        (V2.parseTransactionLocal input accounts categories env.today).toAccountName) = false :=
      beq_eq_false_iff_ne.mpr hdiff
    simp only [hkey, hlocal, Bool.not_true, Bool.or_false, Bool.false_eq_true,
      if_false, htr, hacc, hto, hbne, beq_self_eq_true, Bool.and_true,
      Bool.not_false, Bool.and_self, if_true]

/-- C3 (witness). -/
theorem claim3_witness :
    V1.parseTransactionAI ("午餐180現金".toList) ["現金".toList]
        [⟨"餐飲".toList, some TxType.expense⟩]
        ⟨false, true, true, "2024-03-05".toList⟩ RemoteOutcome.fails =
      (some (V1.parseTransactionLocal ("午餐180現金".toList) ["現金".toList]
        [⟨"餐飲".toList, some TxType.expense⟩] ("2024-03-05".toList)), false) ∧
    V2.parseTransactionAI ("ab轉到cd".toList) ["ab".toList, "cd".toList] []
        ⟨false, true, true, "2024-03-05".toList⟩ RemoteOutcome.fails =
      (some (V2.parseTransactionLocal ("ab轉到cd".toList) ["ab".toList, "cd".toList]
        [] ("2024-03-05".toList)), false) :=
  ⟨claim3_confident_skips_remote.1 ("午餐180現金".toList) ["現金".toList]
      [⟨"餐飲".toList, some TxType.expense⟩] ⟨false, true, true, "2024-03-05".toList⟩
      RemoteOutcome.fails rfl rfl (by decide!),
    claim3_confident_skips_remote.2 ("ab轉到cd".toList) ["ab".toList, "cd".toList]
      [] ⟨false, true, true, "2024-03-05".toList⟩ RemoteOutcome.fails rfl rfl
      (by decide!) (by decide!) (by decide!) (by decide!) (by decide!)⟩
